import Mathlib

/-!
# logxr: the message store and the text-layout / render pipeline

A shallow embedding of `src/Message.js`, `src/XRConsoleFactory.js` and
`src/XRConsole.js`, followed by theorems about the embedded definitions.

Conventions of the embedding

* JavaScript arrays are lists; index 0 of the array is the head of the list.
* `Array.prototype.slice` is embedded with its relative-index semantics on
  integer arguments (`jsSlice`).
* The numeric `MessageType` enum is embedded as natural numbers, so that a
  value outside the enum can be written down.
* Pixel quantities are rationals.
* Code that throws returns its exception in the result.
-/

namespace LogXR

/-! ## Message.js -/

/-- The numeric enum `MessageType` of `Message.js`. -/
abbrev MessageType := Nat

namespace MessageType

def Log : MessageType := 1
def Error : MessageType := 2
def Warning : MessageType := 3
def Info : MessageType := 4
def Debug : MessageType := 5
def All : MessageType := 6

end MessageType

/-- The object built by `buildMessage`: `type`, `timestamp` (milliseconds) and `content`. -/
structure Message where
  type : MessageType
  timestamp : Int
  content : String
deriving DecidableEq, Repr

/-! ## JavaScript primitives used by the sources -/

/-- Relative index of `slice`: a negative index counts from the end, and the
result is clamped to `[0, len]`. -/
def relIndex (len : Nat) (i : Int) : Nat :=
  if i < 0 then (max ((len : Int) + i) 0).toNat else (min i (len : Int)).toNat

/-- `xs.slice(start, final)` on an array (or on the characters of a string). -/
def jsSlice {α : Type} (xs : List α) (start final : Int) : List α :=
  let k := relIndex xs.length start
  let e := relIndex xs.length final
  (xs.drop k).take (e - k)

/-- `args.join(sep)` on an array of strings. -/
def jsJoin (sep : String) : List String → String
  | [] => ""
  | [a] => a
  | a :: b :: rest => a ++ sep ++ jsJoin sep (b :: rest)

/-! ## XRConsole.js: options and the console object -/

/-- The resolved `_options` object of a console. -/
structure Options where
  pixelWidth : ℚ
  pixelHeight : ℚ
  actualWidth : ℚ
  actualHeight : ℚ
  horizontalPadding : ℚ
  verticalPadding : ℚ
  fontSize : ℚ
  showTimestamp : Bool
  messageType : MessageType
  backgroundColor : String
  logColor : String
  errorColor : String
  warningColor : String
  infoColor : String
  debugColor : String
deriving DecidableEq

/-- `DEFAULT_OPTIONS`. -/
def DEFAULT_OPTIONS : Options where
  pixelWidth := 1024
  pixelHeight := 512
  actualWidth := 1
  actualHeight := 1
  horizontalPadding := 5
  verticalPadding := 5
  fontSize := 16
  showTimestamp := true
  messageType := MessageType.All
  backgroundColor := "#222222"
  logColor := "#FFFFFF"
  errorColor := "#D0342C"
  warningColor := "#FF7900"
  infoColor := "#76B947"
  debugColor := "#0E86D4"

/-- The `options` argument of the constructor: every field may be absent. -/
structure OptionsArg where
  pixelWidth : Option ℚ := none
  pixelHeight : Option ℚ := none
  actualWidth : Option ℚ := none
  actualHeight : Option ℚ := none
  horizontalPadding : Option ℚ := none
  verticalPadding : Option ℚ := none
  fontSize : Option ℚ := none
  showTimestamp : Option Bool := none
  messageType : Option MessageType := none
  backgroundColor : Option String := none
  logColor : Option String := none
  errorColor : Option String := none
  warningColor : Option String := none
  infoColor : Option String := none
  debugColor : Option String := none

/-- The state of an `XRConsole` instance that the sources read and write. -/
structure XRConsole where
  needsUpdate : Bool
  _options : Options
deriving DecidableEq

namespace XRConsole

/-- The constructor: `needsUpdate = true`, and each option is resolved field by
field (`??` for all fields, `||` for `messageType`, for which `0` is falsy). -/
def new (options : OptionsArg) : XRConsole where
  needsUpdate := true
  _options :=
    { pixelWidth := options.pixelWidth.getD DEFAULT_OPTIONS.pixelWidth
      pixelHeight := options.pixelHeight.getD DEFAULT_OPTIONS.pixelHeight
      actualWidth := options.actualWidth.getD DEFAULT_OPTIONS.actualWidth
      actualHeight := options.actualHeight.getD DEFAULT_OPTIONS.actualHeight
      horizontalPadding := options.horizontalPadding.getD DEFAULT_OPTIONS.horizontalPadding
      verticalPadding := options.verticalPadding.getD DEFAULT_OPTIONS.verticalPadding
      fontSize := options.fontSize.getD DEFAULT_OPTIONS.fontSize
      showTimestamp := options.showTimestamp.getD DEFAULT_OPTIONS.showTimestamp
      messageType :=
        match options.messageType with
        | none => DEFAULT_OPTIONS.messageType
        | some t => if t = 0 then DEFAULT_OPTIONS.messageType else t
      backgroundColor := options.backgroundColor.getD DEFAULT_OPTIONS.backgroundColor
      logColor := options.logColor.getD DEFAULT_OPTIONS.logColor
      errorColor := options.errorColor.getD DEFAULT_OPTIONS.errorColor
      warningColor := options.warningColor.getD DEFAULT_OPTIONS.warningColor
      infoColor := options.infoColor.getD DEFAULT_OPTIONS.infoColor
      debugColor := options.debugColor.getD DEFAULT_OPTIONS.debugColor }

end XRConsole

/-! ## Host capabilities used by XRConsole.js -/

/-- The fields of the result of `context.measureText` that the sources read. -/
structure TextMetrics where
  width : ℚ
  actualBoundingBoxAscent : ℚ
deriving DecidableEq

/-- The 2D context of the canvas: its text measurement for a font size (the
font is always `monospace`) and a text. -/
structure Context2D where
  measureText : ℚ → String → TextMetrics

/-- What the sources take from their environment: the result of
`canvas.getContext` (`none` for `null`), the function `wrap` of `word-wrap.js`
called with `indent` empty and `trim` true, and the local-time accessors of
`Date`. -/
structure Host where
  getContext : Option Context2D
  wrap : String → Int → String
  getHours : Int → Nat
  getMinutes : Int → Nat
  getSeconds : Int → Nat

/-- Exceptions raised while rendering. -/
inductive JSError where
  | typeError
  | error (message : String)
deriving DecidableEq, Repr

/-- Calls received by the 2D context and by the texture of the panel. A filling
call carries the `fillStyle` in effect when it is issued. -/
inductive CanvasCall where
  | clearRect (x y w h : ℚ)
  | fillRect (fillStyle : String) (x y w h : ℚ)
  | measureText (fontSize : ℚ) (text : String)
  | fillText (fillStyle : String) (text : String) (x y : ℚ)
  | disposeMap
  | newCanvasTexture
deriving DecidableEq

/-- The predicate: the call paints on the canvas. -/
def CanvasCall.isDrawing : CanvasCall → Bool
  | .clearRect _ _ _ _ => true
  | .fillRect _ _ _ _ _ => true
  | .fillText _ _ _ _ => true
  | _ => false

/-- An element of the array built by `_generateLines`. -/
structure Line where
  text : String
  color : String
  indent : Nat
deriving DecidableEq, Repr

/-! ## XRConsole.js: wrapping and timestamps -/

/-- The line feed character. -/
def newline : Char := Char.ofNat 10

/-- `text.split` at line feeds, on the characters of the string. -/
def splitChars : List Char → List (List Char)
  | [] => [[]]
  | c :: cs =>
    if c = newline then [] :: splitChars cs
    else
      match splitChars cs with
      | [] => [[c]]
      | l :: ls => (c :: l) :: ls

/-- `text.split` at line feeds. -/
def splitLines (text : String) : List String :=
  (splitChars text.data).map String.mk

/-- The function `wrapText`: each line of the text is wrapped by `wrap`, and the
lines of each result are pushed in order. -/
def wrapText (wrap : String → Int → String) (text : String) (numCharsPerLine : Int) :
    List String :=
  (splitLines text).foldl
    (fun lines line =>
      (splitLines (wrap line numCharsPerLine)).foldl
        (fun lines wrappedLine => lines ++ [wrappedLine]) lines)
    []

/-- `str.slice(start)` on a string. -/
def strSliceFrom (str : String) (start : Int) : String :=
  String.mk (jsSlice str.data start str.data.length)

/-- The helper `pad` of `buildReadableTimestamp`: the array of `s` zeros is
converted to a string (its elements joined by commas), `n` is appended in
decimal, and the last `s` characters are kept. -/
def pad (n : Nat) (s : Nat := 2) : String :=
  strSliceFrom (jsJoin "," (List.replicate s "0") ++ toString n) (-(s : Int))

/-- The function `buildReadableTimestamp`. -/
def buildReadableTimestamp (host : Host) (timestamp : Int) : String :=
  "[" ++ pad (host.getHours timestamp) ++ ":" ++ pad (host.getMinutes timestamp) ++ ":" ++
    pad (host.getSeconds timestamp) ++ "]"

namespace XRConsole

/-- The getter `innerHeight`. -/
def innerHeight (self : XRConsole) : ℚ :=
  self._options.pixelHeight - self._options.verticalPadding * 2

/-- The getter `innerWidth`. -/
def innerWidth (self : XRConsole) : ℚ :=
  self._options.pixelWidth - self._options.horizontalPadding * 2

/-- The method `_getColorForMessageType`. -/
def _getColorForMessageType (self : XRConsole) (messageType : MessageType) :
    Except JSError String :=
  if messageType = MessageType.Log then .ok self._options.logColor
  else if messageType = MessageType.Error then .ok self._options.errorColor
  else if messageType = MessageType.Warning then .ok self._options.warningColor
  else if messageType = MessageType.Info then .ok self._options.infoColor
  else if messageType = MessageType.Debug then .ok self._options.debugColor
  else .error (.error "Invalid message type")

/-- The timestamp string of `_generateLines` for one message. -/
def timestampOf (self : XRConsole) (host : Host) (message : Message) : String :=
  if self._options.showTimestamp then buildReadableTimestamp host message.timestamp ++ " "
  else ""

/-- The inner loop of `_generateLines`: the lines of one message, each put at
the front of `localLines`. -/
def localLinesOf (self : XRConsole) (timestamp : String) (message : Message)
    (textLines : List String) : Except JSError (List Line) :=
  textLines.enum.foldlM
    (fun localLines (p : Nat × String) => do
      let color ← self._getColorForMessageType message.type
      pure
        ({ text := if p.1 = 0 then timestamp ++ p.2 else p.2
           color := color
           indent := if p.1 = 0 then 0 else timestamp.length } :: localLines))
    []

/-- The method `_generateLines`. -/
def _generateLines (self : XRConsole) (host : Host) (messages : List Message)
    (numCharsPerLine : Int) : Except JSError (List Line) :=
  messages.foldlM
    (fun lines message => do
      let timestamp := self.timestampOf host message
      let textLines :=
        wrapText host.wrap message.content (numCharsPerLine - (timestamp.length : Int))
      let localLines ← self.localLinesOf timestamp message textLines
      pure (lines ++ localLines))
    []

/-- The method `_renderLines`: the calls issued on the context, in order. -/
def _renderLines (self : XRConsole) (lines : List Line) (lineHeight charWidth : ℚ) :
    List CanvasCall :=
  let y := min self.innerHeight ((lines.length : ℚ) * lineHeight) + self._options.verticalPadding
  (lines.foldl
    (fun (acc : ℚ × List CanvasCall) line =>
      (acc.1 - lineHeight,
        acc.2 ++
          [CanvasCall.fillText line.color line.text
            ((line.indent : ℚ) * charWidth + self._options.horizontalPadding) acc.1]))
    (y, [])).2

end XRConsole

/-! ## XRConsoleFactory.js: the message store -/

/-- The fields of the `XRConsoleFactory` singleton. The consoles registered in
`_consoleInstances` are held by value; a console is named by its index. -/
structure XRConsoleFactory where
  _messageQueue : List Message
  _consoleInstances : List XRConsole
  _maxNumMessages : Int
deriving DecidableEq

/-- The function `buildMessage`; the value of `Date.now()` is the argument `now`,
and `args` holds the arguments as `join` converts them to strings. -/
def buildMessage (now : Int) (messageType : MessageType) (args : List String) : Message where
  type := messageType
  timestamp := now
  content := jsJoin " " args

namespace XRConsoleFactory

/-- The field initialisers of the constructor. -/
def new : XRConsoleFactory where
  _messageQueue := []
  _consoleInstances := []
  _maxNumMessages := 100

/-- The method `_pushMessage`: `unshift`, then `slice(0, _maxNumMessages)`. -/
def _pushMessage (self : XRConsoleFactory) (message : Message) : XRConsoleFactory :=
  { self with _messageQueue := jsSlice (message :: self._messageQueue) 0 self._maxNumMessages }

/-- The getter `maxNumMessages`. -/
def maxNumMessages (self : XRConsoleFactory) : Int :=
  self._maxNumMessages

/-- The setter `maxNumMessages`. -/
def setMaxNumMessages (self : XRConsoleFactory) (value : Int) : XRConsoleFactory :=
  { self with
    _maxNumMessages := value
    _messageQueue := jsSlice self._messageQueue 0 value }

/-- The loop `_consoleInstances.forEach(c => c.needsUpdate = true)`. -/
def markAll (self : XRConsoleFactory) : XRConsoleFactory :=
  { self with
    _consoleInstances := self._consoleInstances.map fun c => { c with needsUpdate := true } }

/-- The body shared by the five overrides `console.log`, `console.error`,
`console.warn`, `console.info` and `console.debug`, for the severity
`messageType`: build the message, push it, mark every console. The call of
the original console function has no effect on the store. -/
def consoleOverride (self : XRConsoleFactory) (messageType : MessageType) (now : Int)
    (args : List String) : XRConsoleFactory :=
  (self._pushMessage (buildMessage now messageType args)).markAll

def consoleLog (self : XRConsoleFactory) (now : Int) (args : List String) : XRConsoleFactory :=
  self.consoleOverride MessageType.Log now args

def consoleError (self : XRConsoleFactory) (now : Int) (args : List String) : XRConsoleFactory :=
  self.consoleOverride MessageType.Error now args

def consoleWarn (self : XRConsoleFactory) (now : Int) (args : List String) : XRConsoleFactory :=
  self.consoleOverride MessageType.Warning now args

def consoleInfo (self : XRConsoleFactory) (now : Int) (args : List String) : XRConsoleFactory :=
  self.consoleOverride MessageType.Info now args

def consoleDebug (self : XRConsoleFactory) (now : Int) (args : List String) : XRConsoleFactory :=
  self.consoleOverride MessageType.Debug now args

/-- The override `console.clear`. -/
def consoleClear (self : XRConsoleFactory) : XRConsoleFactory :=
  ({ self with _messageQueue := [] } : XRConsoleFactory).markAll

/-- The method `createConsole`: the new console is pushed on `_consoleInstances`
and returned. -/
def createConsole (self : XRConsoleFactory) (options : OptionsArg) :
    XRConsoleFactory × XRConsole :=
  let consoleInstance := XRConsole.new options
  ({ self with _consoleInstances := self._consoleInstances ++ [consoleInstance] },
    consoleInstance)

/-- The method `getMessages`. -/
def getMessages (self : XRConsoleFactory) (messageType : MessageType) (count : Int) :
    List Message :=
  if messageType = MessageType.All then self._messageQueue
  else jsSlice (self._messageQueue.filter fun message => message.type = messageType) 0 count

end XRConsoleFactory

/-! ## XRConsole.js: the render pass -/

/-- What a call of `render` or `updateMatrixWorld` leaves behind: the console,
the calls issued, and the exception when one was thrown. -/
structure RenderResult where
  console : XRConsole
  calls : List CanvasCall
  thrown : Option JSError
deriving DecidableEq

namespace XRConsole

/-- The constant `messages` of `render`: the messages asked of the factory
singleton, with `numLines` as the count. The quotient is that of the source
when the measured ascent is not zero. -/
def queriedMessages (self : XRConsole) (factory : XRConsoleFactory) (textMetrics : TextMetrics) :
    List Message :=
  let lineHeight := textMetrics.actualBoundingBoxAscent * 1.2
  let numLines := Int.ceil (self.innerHeight / lineHeight)
  factory.getMessages self._options.messageType numLines

/-- The method `render`, reading the messages of the factory singleton. The
canvas has the pixel size of the options. With a `null` context the first
method call throws a `TypeError`. The quotient is that of the source when the
measured width is not zero. -/
def render (self : XRConsole) (host : Host) (factory : XRConsoleFactory) : RenderResult :=
  match host.getContext with
  | none => { console := self, calls := [], thrown := some .typeError }
  | some context =>
    let cleared : List CanvasCall :=
      [ .clearRect 0 0 self._options.pixelWidth self._options.pixelHeight,
        .fillRect self._options.backgroundColor 0 0 self._options.pixelWidth
          self._options.pixelHeight,
        .measureText self._options.fontSize "M" ]
    let textMetrics := context.measureText self._options.fontSize "M"
    let lineHeight := textMetrics.actualBoundingBoxAscent * 1.2
    let numCharsPerLine := Int.floor (self.innerWidth / textMetrics.width)
    let messages := self.queriedMessages factory textMetrics
    match self._generateLines host messages numCharsPerLine with
    | .error e => { console := self, calls := cleared, thrown := some e }
    | .ok lines =>
      { console := { self with needsUpdate := false }
        calls :=
          cleared ++ self._renderLines lines lineHeight textMetrics.width ++
            [.disposeMap, .newCanvasTexture]
        thrown := none }

/-- The method `updateMatrixWorld`; the inherited method issues no canvas call. -/
def updateMatrixWorld (self : XRConsole) (host : Host) (factory : XRConsoleFactory) :
    RenderResult :=
  if self.needsUpdate then self.render host factory
  else { console := self, calls := [], thrown := none }

end XRConsole

namespace XRConsoleFactory

/-- A method call on the console registered at index `i`, whose state is
written back at the same index. -/
def onConsole (self : XRConsoleFactory) (i : Nat)
    (method : XRConsole → XRConsoleFactory → RenderResult) :
    Option (XRConsoleFactory × RenderResult) :=
  match self._consoleInstances[i]? with
  | none => none
  | some c =>
    let r := method c self
    some ({ self with _consoleInstances := self._consoleInstances.set i r.console }, r)

end XRConsoleFactory

/-! ## Operations of the store, as data -/

/-- The operations on the store that change the queue or the capacity. -/
inductive StoreOp where
  | pushMessage (message : Message)
  | setMaxNumMessages (value : Int)
  | clear
deriving DecidableEq

namespace StoreOp

/-- The effect of an operation on the store. -/
def apply (self : XRConsoleFactory) : StoreOp → XRConsoleFactory
  | pushMessage message => self._pushMessage message
  | setMaxNumMessages value => self.setMaxNumMessages value
  | clear => self.consoleClear

/-- The operation assigns no negative capacity. -/
def NonNegative : StoreOp → Prop
  | setMaxNumMessages value => 0 ≤ value
  | _ => True

instance (op : StoreOp) : Decidable op.NonNegative := by
  cases op <;> unfold NonNegative <;> infer_instance

end StoreOp

/-- The queue is no longer than the capacity. -/
def WithinCapacity (self : XRConsoleFactory) : Prop :=
  (self._messageQueue.length : Int) ≤ self._maxNumMessages

instance (self : XRConsoleFactory) : Decidable (WithinCapacity self) := by
  unfold WithinCapacity; infer_instance

/-- The store after the ingestion of `messages`, first to last, through `_pushMessage`. -/
def ingestAll (self : XRConsoleFactory) (messages : List Message) : XRConsoleFactory :=
  messages.foldl XRConsoleFactory._pushMessage self

/-! ## Method calls on a registered console -/

namespace XRConsoleFactory

/-- A call of `render` on the console registered at index `i`. -/
def renderAt (self : XRConsoleFactory) (host : Host) (i : Nat) :
    Option (XRConsoleFactory × RenderResult) :=
  self.onConsole i fun c f => c.render host f

/-- A call of `updateMatrixWorld` on the console registered at index `i`. -/
def updateMatrixWorldAt (self : XRConsoleFactory) (host : Host) (i : Nat) :
    Option (XRConsoleFactory × RenderResult) :=
  self.onConsole i fun c f => c.updateMatrixWorld host f

/-- The value of `needsUpdate` of the console registered at index `i`. -/
def needsUpdateAt (self : XRConsoleFactory) (i : Nat) : Option Bool :=
  self._consoleInstances[i]?.map fun c => c.needsUpdate

end XRConsoleFactory

/-- The object pushed by the inner loop of `_generateLines` for the wrapped line
`p.2` of index `p.1`. -/
def lineOf (timestamp color : String) (p : Nat × String) : Line where
  text := if p.1 = 0 then timestamp ++ p.2 else p.2
  color := color
  indent := if p.1 = 0 then 0 else timestamp.length

/-- A host for the evaluated examples: a context whose glyph is 8 wide with an
ascent of 10, a `wrap` that finds nothing to wrap, and the time 01:02:03. -/
def exampleHost : Host where
  getContext := some ⟨fun _ _ => ⟨8, 10⟩⟩
  wrap := fun line _ => line
  getHours := fun _ => 1
  getMinutes := fun _ => 2
  getSeconds := fun _ => 3

/-- The example host with a canvas that yields no 2D context. -/
def exampleHostNoContext : Host :=
  { exampleHost with getContext := none }

/-- The severities that have a colour. -/
def colouredTypes : List MessageType :=
  [MessageType.Log, MessageType.Error, MessageType.Warning, MessageType.Info, MessageType.Debug]

/-! ## Layout: the segments of a message and their place among the lines -/

namespace XRConsole

/-- The constant `textLines` of `_generateLines` for one message: its wrapped
segments, in reading order. -/
def segmentsOf (self : XRConsole) (host : Host) (numCharsPerLine : Int) (message : Message) :
    List String :=
  wrapText host.wrap message.content
    (numCharsPerLine - ((self.timestampOf host message).length : Int))

/-- The colour returned by `_getColorForMessageType`, empty when it throws. -/
def colourOr (self : XRConsole) (messageType : MessageType) : String :=
  match self._getColorForMessageType messageType with
  | .ok colour => colour
  | .error _ => ""

/-- The objects built for the segments of one message, in reading order. -/
def linesOfMessage (self : XRConsole) (host : Host) (numCharsPerLine : Int)
    (message : Message) : List Line :=
  (self.segmentsOf host numCharsPerLine message).enum.map
    (lineOf (self.timestampOf host message) (self.colourOr message.type))

/-- The number of segments of each message. -/
def segmentCounts (self : XRConsole) (host : Host) (numCharsPerLine : Int)
    (messages : List Message) : List Nat :=
  messages.map fun message => (self.segmentsOf host numCharsPerLine message).length

end XRConsole

/-- The index, in the array returned by `_generateLines`, of segment `k` of the
message of index `a`: the segments of the messages before it come first, and
its own segments are in reverse order. -/
def lineIndex (counts : List Nat) (a k : Nat) : Nat :=
  (counts.take a).sum + (counts.getD a 0 - 1 - k)

/-- The `y` of a `fillText` call. -/
def fillTextY : CanvasCall → Option ℚ
  | .fillText _ _ _ y => some y
  | _ => none

namespace XRConsole

/-- The call that `_renderLines` issues for segment `k` of the message of
index `a`, when `_generateLines` returns. -/
def segmentCall (self : XRConsole) (host : Host) (messages : List Message)
    (numCharsPerLine : Int) (lineHeight charWidth : ℚ) (a k : Nat) : Option CanvasCall :=
  match self._generateLines host messages numCharsPerLine with
  | .ok lines =>
    (self._renderLines lines lineHeight charWidth)[
      lineIndex (self.segmentCounts host numCharsPerLine messages) a k]?
  | .error _ => none

/-- The `y` at which segment `k` of the message of index `a` is drawn. -/
def segmentY (self : XRConsole) (host : Host) (messages : List Message)
    (numCharsPerLine : Int) (lineHeight charWidth : ℚ) (a k : Nat) : Option ℚ :=
  (self.segmentCall host messages numCharsPerLine lineHeight charWidth a k).bind fillTextY

end XRConsole

/-- The two decimal digits of a number below 100, as a string. -/
def twoDigits (n : Nat) : String :=
  String.mk [Char.ofNat (48 + n / 10), Char.ofNat (48 + n % 10)]

/-- A host whose `wrap` breaks every line after its first character. -/
def exampleHostTwoSegments : Host :=
  { exampleHost with
    wrap := fun line _ => String.mk (line.data.take 1 ++ newline :: line.data.drop 1) }

/-- A console created with timestamps off, every other option at its default. -/
def plainConsole : XRConsole :=
  XRConsole.new { showTimestamp := some false }

/-- The store after `createConsole` with timestamps off, `console.info` with
`hello` and then `console.error` with `boom`. -/
def helloBoomStore : XRConsoleFactory :=
  ((XRConsoleFactory.new.createConsole { showTimestamp := some false }).1.consoleInfo 10
    ["hello"]).consoleError 11 ["boom"]

/-! ## word-wrap.js, modelled from the specification -/

/-- The pieces of a text between its whitespace characters, empty pieces kept. -/
def splitWhitespace : List Char → List (List Char)
  | [] => [[]]
  | c :: cs =>
    if c.isWhitespace then [] :: splitWhitespace cs
    else
      match splitWhitespace cs with
      | [] => [[c]]
      | l :: ls => (c :: l) :: ls

/-- The whitespace-delimited words of a text, in order. -/
def wordsOf (cs : List Char) : List (List Char) :=
  (splitWhitespace cs).filter fun word => !word.isEmpty

/-- Modelled from the spec: the greedy filling of `word-wrap.js`, which is not
among the sources. The next word joins the current line, after one space,
when the line stays within the width; otherwise the current line is closed
and the word starts the next line. A word is never split. -/
def fillLines (width : Nat) (current : List Char) : List (List Char) → List (List Char)
  | [] => [current]
  | word :: rest =>
    if current.length + 1 + word.length ≤ width then
      fillLines width (current ++ ' ' :: word) rest
    else current :: fillLines width word rest

/-- Modelled from the spec: the lines into which `word-wrap.js`, which is not
among the sources, wraps the words of one line; a line without words stays
one empty line. -/
def wrapWords (width : Nat) : List (List Char) → List (List Char)
  | [] => [[]]
  | word :: rest => fillLines width word rest

/-- The lines joined by line feeds. -/
def joinLines : List (List Char) → List Char
  | [] => []
  | [l] => l
  | l :: l2 :: rest => l ++ newline :: joinLines (l2 :: rest)

/-- Modelled from the spec: the function `wrap` of `word-wrap.js`, which is not
among the sources, called with an empty `indent` and `trim` true: the text is
wrapped greedily into segments of at most `width` characters, breaking only
at whitespace and never inside a word, and the segments are returned joined
by line feeds. -/
def specWrap (line : String) (width : Int) : String :=
  String.mk (joinLines (wrapWords width.toNat (wordsOf line.data)))

/-! ## Lemmas on the primitives -/

theorem relIndex_zero (len : Nat) : relIndex len 0 = 0 := by
  simp [relIndex]

theorem relIndex_of_nonneg (len : Nat) (n : Int) (h : 0 ≤ n) :
    relIndex len n = min n.toNat len := by
  unfold relIndex
  rw [if_neg (not_lt.mpr h)]
  omega

theorem jsSlice_zero_of_nonneg {α : Type} (xs : List α) (n : Int) (h : 0 ≤ n) :
    jsSlice xs 0 n = xs.take n.toNat := by
  unfold jsSlice
  simp only [relIndex_zero, relIndex_of_nonneg _ _ h, List.drop_zero, Nat.sub_zero]
  rw [List.take_eq_take]
  simp

theorem jsSlice_zero_natCast {α : Type} (xs : List α) (c : Nat) :
    jsSlice xs 0 (c : Int) = xs.take c := by
  rw [jsSlice_zero_of_nonneg _ _ (Int.ofNat_nonneg c)]
  simp

theorem ingestAll_maxNumMessages (self : XRConsoleFactory) (messages : List Message) :
    (ingestAll self messages)._maxNumMessages = self._maxNumMessages := by
  unfold ingestAll
  induction messages generalizing self with
  | nil => rfl
  | cons m ms ih => rw [List.foldl_cons, ih]; rfl

theorem ingestAll_append_singleton (self : XRConsoleFactory) (messages : List Message)
    (m : Message) :
    ingestAll self (messages ++ [m]) = (ingestAll self messages)._pushMessage m := by
  simp [ingestAll, List.foldl_append]

theorem ingestAll_queue (self : XRConsoleFactory) (c : Nat) (messages : List Message)
    (hq : self._messageQueue = []) (hc : self._maxNumMessages = (c : Int)) :
    (ingestAll self messages)._messageQueue = messages.reverse.take c := by
  induction messages using List.reverseRecOn with
  | nil => simp [ingestAll, hq]
  | append_singleton ms m ih =>
    rw [ingestAll_append_singleton]
    unfold XRConsoleFactory._pushMessage
    simp only [ingestAll_maxNumMessages, hc, jsSlice_zero_natCast, ih, List.reverse_append,
      List.reverse_singleton, List.singleton_append]
    cases c with
    | zero => simp
    | succ k =>
      simp only [List.take_succ_cons, List.take_take]
      congr 1
      rw [List.take_eq_take]
      omega

/-! ## The bounded queue -/

/-- C1: from a store with an empty queue and capacity `c`, after the ingestion
of any messages through `_pushMessage` the queue is the `min c n` most recently
ingested messages, newest first (`n` the number of ingested messages); its
length is `min c n`, so at most `c`; and with `1 ≤ c` and at least one
ingestion, the element at index 0 of `getMessages(All, N)` is the message
ingested last. -/
theorem pushMessage_keeps_most_recent (self : XRConsoleFactory) (c : Nat)
    (messages : List Message) (N : Int)
    (hq : self._messageQueue = []) (hc : self._maxNumMessages = (c : Int)) :
    (ingestAll self messages)._messageQueue =
        messages.reverse.take (min c messages.length) ∧
      (ingestAll self messages)._messageQueue.length = min c messages.length ∧
      (ingestAll self messages)._messageQueue.length ≤ c ∧
      (1 ≤ c → ∀ last, messages.getLast? = some last →
        ((ingestAll self messages).getMessages MessageType.All N)[0]? = some last) := by
  have hqueue := ingestAll_queue self c messages hq hc
  have hmin : messages.reverse.take c = messages.reverse.take (min c messages.length) := by
    rw [List.take_eq_take]; simp
  refine ⟨hqueue.trans hmin, ?_, ?_, ?_⟩
  · rw [hqueue]; simp
  · rw [hqueue]; simp
  · intro h1 last hlast
    unfold XRConsoleFactory.getMessages
    rw [if_pos rfl, hqueue]
    obtain ⟨k, rfl⟩ : ∃ k, c = k + 1 := ⟨c - 1, by omega⟩
    rw [List.getLast?_eq_head?_reverse] at hlast
    cases hr : messages.reverse with
    | nil => rw [hr] at hlast; simp at hlast
    | cons a as => rw [hr] at hlast; simpa using hlast

/-- The witness of `pushMessage_keeps_most_recent`: capacity 2, three ingestions. -/
theorem pushMessage_keeps_most_recent_witness :
    (ingestAll (XRConsoleFactory.new.setMaxNumMessages 2)
        [⟨1, 10, "a"⟩, ⟨2, 11, "b"⟩, ⟨4, 12, "c"⟩])._messageQueue =
      [⟨4, 12, "c"⟩, ⟨2, 11, "b"⟩] ∧
    ((ingestAll (XRConsoleFactory.new.setMaxNumMessages 2)
        [⟨1, 10, "a"⟩, ⟨2, 11, "b"⟩, ⟨4, 12, "c"⟩]).getMessages MessageType.All 7)[0]? =
      some ⟨4, 12, "c"⟩ :=
  have h := pushMessage_keeps_most_recent (XRConsoleFactory.new.setMaxNumMessages 2) 2
    [⟨1, 10, "a"⟩, ⟨2, 11, "b"⟩, ⟨4, 12, "c"⟩] 7 (by decide) (by decide)
  ⟨h.1, h.2.2.2 (by decide) ⟨4, 12, "c"⟩ (by decide)⟩

/-- C2: the predicate "queue length ≤ maxNumMessages" holds for the store built
by the constructor, and every operation that assigns no negative capacity
(`_pushMessage`, the setter of `maxNumMessages`, `console.clear`) preserves it. -/
theorem withinCapacity_preserved (self : XRConsoleFactory) (op : StoreOp)
    (hinv : WithinCapacity self) (hop : op.NonNegative) :
    WithinCapacity XRConsoleFactory.new ∧ WithinCapacity (op.apply self) := by
  refine ⟨by decide, ?_⟩
  unfold WithinCapacity at hinv ⊢
  have hcap : 0 ≤ self._maxNumMessages := le_trans (Int.ofNat_nonneg _) hinv
  cases op with
  | pushMessage message =>
    simp only [StoreOp.apply, XRConsoleFactory._pushMessage, jsSlice_zero_of_nonneg _ _ hcap,
      List.length_take]
    omega
  | setMaxNumMessages value =>
    have hv : 0 ≤ value := hop
    simp only [StoreOp.apply, XRConsoleFactory.setMaxNumMessages, jsSlice_zero_of_nonneg _ _ hv,
      List.length_take]
    omega
  | clear =>
    simpa [StoreOp.apply, XRConsoleFactory.consoleClear, XRConsoleFactory.markAll] using hcap

/-- The witness of `withinCapacity_preserved`: a full store of capacity 2 whose
capacity is lowered to 1. -/
theorem withinCapacity_preserved_witness :
    WithinCapacity (ingestAll (XRConsoleFactory.new.setMaxNumMessages 2)
        [⟨1, 10, "a"⟩, ⟨2, 11, "b"⟩]) ∧
      WithinCapacity ((StoreOp.setMaxNumMessages 1).apply
        (ingestAll (XRConsoleFactory.new.setMaxNumMessages 2) [⟨1, 10, "a"⟩, ⟨2, 11, "b"⟩])) :=
  ⟨by decide,
    (withinCapacity_preserved
      (ingestAll (XRConsoleFactory.new.setMaxNumMessages 2) [⟨1, 10, "a"⟩, ⟨2, 11, "b"⟩])
      (StoreOp.setMaxNumMessages 1) (by decide) (by decide)).2⟩

/-! ## Queries -/

/-- C3: for a severity `s` other than `All` and a limit `N ≥ 0`,
`getMessages(s, N)` is the first `N` elements of the queue filtered to the
messages of type `s`: every returned message has type `s`, at most `N` are
returned, and they are a subsequence of the queue (same relative order). -/
theorem getMessages_severity (self : XRConsoleFactory) (s : MessageType) (N : Int)
    (hs : s ≠ MessageType.All) (hN : 0 ≤ N) :
    self.getMessages s N =
        (self._messageQueue.filter fun message => message.type = s).take N.toNat ∧
      (∀ message ∈ self.getMessages s N, message.type = s) ∧
      ((self.getMessages s N).length : Int) ≤ N ∧
      (self.getMessages s N).Sublist self._messageQueue := by
  have heq : self.getMessages s N =
      (self._messageQueue.filter fun message => message.type = s).take N.toNat := by
    unfold XRConsoleFactory.getMessages
    rw [if_neg hs, jsSlice_zero_of_nonneg _ _ hN]
  refine ⟨heq, ?_, ?_, ?_⟩
  · intro message hmem
    rw [heq] at hmem
    have := List.mem_of_mem_take hmem
    simpa using (List.mem_filter.mp this).2
  · rw [heq, List.length_take]
    omega
  · rw [heq]
    exact (List.take_sublist _ _).trans (List.filter_sublist _)

/-- The witness of `getMessages_severity`: two of the three errors in a queue of four. -/
theorem getMessages_severity_witness :
    (⟨[⟨2, 13, "d"⟩, ⟨1, 12, "c"⟩, ⟨2, 11, "b"⟩, ⟨2, 10, "a"⟩], [], 100⟩ :
        XRConsoleFactory).getMessages MessageType.Error 2 =
      [⟨2, 13, "d"⟩, ⟨2, 11, "b"⟩] :=
  (getMessages_severity ⟨[⟨2, 13, "d"⟩, ⟨1, 12, "c"⟩, ⟨2, 11, "b"⟩, ⟨2, 10, "a"⟩], [], 100⟩
    MessageType.Error 2 (by decide) (by decide)).1

/-- C4, evaluated: on a queue of two messages `getMessages(All, 1)` returns both
messages, more than the limit. -/
theorem getMessages_all_exceeds_limit :
    (⟨[⟨2, 11, "b"⟩, ⟨4, 10, "a"⟩], [], 100⟩ : XRConsoleFactory).getMessages
        MessageType.All 1 = [⟨2, 11, "b"⟩, ⟨4, 10, "a"⟩] ∧
      ¬ (((⟨[⟨2, 11, "b"⟩, ⟨4, 10, "a"⟩], [], 100⟩ : XRConsoleFactory).getMessages
        MessageType.All 1).length ≤ 1) := by
  decide

/-- C5: for the filter `All`, `getMessages(All, N)` is the whole queue for
every limit `N`, so a limit below the queue length is exceeded; and a console
whose filter is `All` hands the whole queue to its render pass, whatever
`numLines` is. -/
theorem getMessages_all_whole_queue (self : XRConsoleFactory) (N : Int)
    (console : XRConsole) (textMetrics : TextMetrics)
    (hfilter : console._options.messageType = MessageType.All) :
    self.getMessages MessageType.All N = self._messageQueue ∧
      (N < self._messageQueue.length → N < (self.getMessages MessageType.All N).length) ∧
      console.queriedMessages self textMetrics = self._messageQueue := by
  have h : ∀ n, self.getMessages MessageType.All n = self._messageQueue := by
    intro n
    unfold XRConsoleFactory.getMessages
    rw [if_pos rfl]
  refine ⟨h N, ?_, ?_⟩
  · intro hlt
    rw [h N]
    exact hlt
  · unfold XRConsole.queriedMessages
    simp only [hfilter]
    exact h _

/-- The witness of `getMessages_all_whole_queue`: a default console, a queue of
two messages and the limit 1. -/
theorem getMessages_all_whole_queue_witness :
    (⟨[⟨2, 11, "b"⟩, ⟨4, 10, "a"⟩], [], 100⟩ : XRConsoleFactory).getMessages
        MessageType.All 1 = [⟨2, 11, "b"⟩, ⟨4, 10, "a"⟩] ∧
      (XRConsole.new {}).queriedMessages ⟨[⟨2, 11, "b"⟩, ⟨4, 10, "a"⟩], [], 100⟩ ⟨8, 400⟩ =
        [⟨2, 11, "b"⟩, ⟨4, 10, "a"⟩] :=
  have h := getMessages_all_whole_queue ⟨[⟨2, 11, "b"⟩, ⟨4, 10, "a"⟩], [], 100⟩ 1
    (XRConsole.new {}) ⟨8, 400⟩ (by decide)
  ⟨h.1, h.2.2⟩

/-! ## Capacity changes -/

/-- C6: assigning `maxNumMessages = n` with `n ≥ 0` sets the capacity to `n`
and replaces the queue by its first `min n (length queue)` elements, in their
order; the consoles are untouched. -/
theorem setMaxNumMessages_truncates (self : XRConsoleFactory) (n : Int) (hn : 0 ≤ n) :
    (self.setMaxNumMessages n).maxNumMessages = n ∧
      (self.setMaxNumMessages n)._messageQueue =
        self._messageQueue.take (min n.toNat self._messageQueue.length) ∧
      (self.setMaxNumMessages n)._messageQueue.length = min n.toNat self._messageQueue.length ∧
      (self.setMaxNumMessages n)._messageQueue <+: self._messageQueue := by
  have hq : (self.setMaxNumMessages n)._messageQueue = self._messageQueue.take n.toNat := by
    simp only [XRConsoleFactory.setMaxNumMessages, jsSlice_zero_of_nonneg _ _ hn]
  refine ⟨rfl, ?_, ?_, ?_⟩
  · rw [hq, List.take_eq_take]; simp
  · rw [hq]; simp
  · rw [hq]; exact List.take_prefix _ _

/-- The witness of `setMaxNumMessages_truncates`: ten ingestions at capacity 10,
then the capacity is set to 3; the three newest messages are left. -/
theorem setMaxNumMessages_truncates_witness :
    ((ingestAll (XRConsoleFactory.new.setMaxNumMessages 10)
        [⟨1, 1, "m1"⟩, ⟨1, 2, "m2"⟩, ⟨1, 3, "m3"⟩, ⟨1, 4, "m4"⟩, ⟨1, 5, "m5"⟩, ⟨1, 6, "m6"⟩,
          ⟨1, 7, "m7"⟩, ⟨1, 8, "m8"⟩, ⟨1, 9, "m9"⟩, ⟨1, 10, "m10"⟩]).setMaxNumMessages
        3)._messageQueue = [⟨1, 10, "m10"⟩, ⟨1, 9, "m9"⟩, ⟨1, 8, "m8"⟩] ∧
      ((ingestAll (XRConsoleFactory.new.setMaxNumMessages 10)
        [⟨1, 1, "m1"⟩, ⟨1, 2, "m2"⟩, ⟨1, 3, "m3"⟩, ⟨1, 4, "m4"⟩, ⟨1, 5, "m5"⟩, ⟨1, 6, "m6"⟩,
          ⟨1, 7, "m7"⟩, ⟨1, 8, "m8"⟩, ⟨1, 9, "m9"⟩, ⟨1, 10, "m10"⟩]).setMaxNumMessages
        3)._messageQueue.length = 3 :=
  have h := setMaxNumMessages_truncates
    (ingestAll (XRConsoleFactory.new.setMaxNumMessages 10)
      [⟨1, 1, "m1"⟩, ⟨1, 2, "m2"⟩, ⟨1, 3, "m3"⟩, ⟨1, 4, "m4"⟩, ⟨1, 5, "m5"⟩, ⟨1, 6, "m6"⟩,
        ⟨1, 7, "m7"⟩, ⟨1, 8, "m8"⟩, ⟨1, 9, "m9"⟩, ⟨1, 10, "m10"⟩]) 3 (by decide)
  ⟨h.2.1, h.2.2.1⟩

/-! ## Lemmas on wrapping and line generation -/

theorem splitChars_ne_nil (cs : List Char) : splitChars cs ≠ [] := by
  cases cs with
  | nil => simp [splitChars]
  | cons c cs =>
    unfold splitChars
    split
    · simp
    · split <;> simp

theorem splitLines_ne_nil (text : String) : splitLines text ≠ [] := by
  simp [splitLines, splitChars_ne_nil]

theorem foldl_push_eq_append {α : Type} (acc xs : List α) :
    xs.foldl (fun lines x => lines ++ [x]) acc = acc ++ xs := by
  induction xs generalizing acc with
  | nil => simp
  | cons x xs ih => simp [ih]

theorem foldl_append_eq_flatMap {α β : Type} (g : α → List β) (acc : List β) (xs : List α) :
    xs.foldl (fun lines x => lines ++ g x) acc = acc ++ xs.flatMap g := by
  induction xs generalizing acc with
  | nil => simp
  | cons x xs ih => simp [ih]

/-- The function `wrapText` is the concatenation of the wrapped lines of each line. -/
theorem wrapText_eq_flatMap (wrap : String → Int → String) (text : String) (n : Int) :
    wrapText wrap text n = (splitLines text).flatMap fun line => splitLines (wrap line n) := by
  unfold wrapText
  simp only [foldl_push_eq_append]
  rw [foldl_append_eq_flatMap]
  simp

theorem wrapText_ne_nil (wrap : String → Int → String) (text : String) (n : Int) :
    wrapText wrap text n ≠ [] := by
  rw [wrapText_eq_flatMap]
  cases h : splitLines text with
  | nil => exact absurd h (splitLines_ne_nil text)
  | cons line rest =>
    simp only [List.flatMap_cons, ne_eq, List.append_eq_nil, not_and]
    intro h1
    exact absurd h1 (splitLines_ne_nil _)

theorem getColor_ok_or_invalid (self : XRConsole) (t : MessageType) :
    (t ∈ colouredTypes ∧ ∃ colour, self._getColorForMessageType t = .ok colour) ∨
      (t ∉ colouredTypes ∧
        self._getColorForMessageType t = .error (.error "Invalid message type")) := by
  by_cases h1 : t = MessageType.Log
  · subst h1; exact Or.inl ⟨by decide, _, rfl⟩
  by_cases h2 : t = MessageType.Error
  · subst h2; exact Or.inl ⟨by decide, _, rfl⟩
  by_cases h3 : t = MessageType.Warning
  · subst h3; exact Or.inl ⟨by decide, _, rfl⟩
  by_cases h4 : t = MessageType.Info
  · subst h4; exact Or.inl ⟨by decide, _, rfl⟩
  by_cases h5 : t = MessageType.Debug
  · subst h5; exact Or.inl ⟨by decide, _, rfl⟩
  right
  simp [XRConsole._getColorForMessageType, colouredTypes, h1, h2, h3, h4, h5]

theorem localLines_foldlM_ok (self : XRConsole) (timestamp colour : String) (message : Message)
    (hc : self._getColorForMessageType message.type = .ok colour)
    (l : List (Nat × String)) (acc : List Line) :
    l.foldlM
        (fun localLines (p : Nat × String) => do
          let color ← self._getColorForMessageType message.type
          pure
            ({ text := if p.1 = 0 then timestamp ++ p.2 else p.2
               color := color
               indent := if p.1 = 0 then 0 else timestamp.length } :: localLines))
        acc =
      (.ok ((l.map (lineOf timestamp colour)).reverse ++ acc) : Except JSError (List Line)) := by
  have hf :
      (fun (localLines : List Line) (p : Nat × String) => do
          let color ← self._getColorForMessageType message.type
          pure
            ({ text := if p.1 = 0 then timestamp ++ p.2 else p.2
               color := color
               indent := if p.1 = 0 then 0 else timestamp.length } :: localLines)) =
        fun localLines p =>
          (.ok (lineOf timestamp colour p :: localLines) : Except JSError (List Line)) := by
    funext localLines p
    rw [hc]
    rfl
  rw [hf]
  induction l generalizing acc with
  | nil => rfl
  | cons p ps ih =>
    rw [List.foldlM_cons]
    simp only [bind, Except.bind]
    rw [ih]
    simp

/-- With a coloured severity the lines of a message are built for every wrapped
line, the last wrapped line first. -/
theorem localLinesOf_ok (self : XRConsole) (timestamp colour : String) (message : Message)
    (textLines : List String)
    (hc : self._getColorForMessageType message.type = .ok colour) :
    self.localLinesOf timestamp message textLines =
      .ok ((textLines.enum.map (lineOf timestamp colour)).reverse) := by
  unfold XRConsole.localLinesOf
  rw [localLines_foldlM_ok self timestamp colour message hc]
  simp

/-- With a severity that has no colour the first wrapped line already throws. -/
theorem localLinesOf_error (self : XRConsole) (timestamp : String) (message : Message)
    (textLines : List String) (e : JSError)
    (hc : self._getColorForMessageType message.type = .error e) (hne : textLines ≠ []) :
    self.localLinesOf timestamp message textLines = .error e := by
  cases textLines with
  | nil => exact absurd rfl hne
  | cons a rest =>
    unfold XRConsole.localLinesOf
    simp only [List.enum, List.enumFrom, List.foldlM_cons, hc]
    rfl

/-- A message without a colour among the messages makes `_generateLines` throw. -/
theorem generateLines_error (self : XRConsole) (host : Host) (messages : List Message)
    (n : Int) (hbad : ∃ message ∈ messages, message.type ∉ colouredTypes) :
    self._generateLines host messages n = .error (.error "Invalid message type") := by
  unfold XRConsole._generateLines
  generalize ([] : List Line) = acc
  induction messages generalizing acc with
  | nil => simp at hbad
  | cons m ms ih =>
    rw [List.foldlM_cons]
    rcases getColor_ok_or_invalid self m.type with ⟨_, colour, hc⟩ | ⟨_, hc⟩
    · have htail : ∃ message ∈ ms, message.type ∉ colouredTypes := by
        obtain ⟨b, hb, hbt⟩ := hbad
        rcases List.mem_cons.mp hb with rfl | hb
        · rcases getColor_ok_or_invalid self b.type with ⟨hin, _⟩ | ⟨_, hc2⟩
          · exact absurd hin hbt
          · rw [hc2] at hc; cases hc
        · exact ⟨b, hb, hbt⟩
      simp only [localLinesOf_ok self _ colour m _ hc, bind, Except.bind, pure, Except.pure]
      exact ih htail _
    · simp only [localLinesOf_error self _ m _ _ hc (wrapText_ne_nil _ _ _), bind, Except.bind]

/-- When every message has a colour `_generateLines` returns. -/
theorem generateLines_ok (self : XRConsole) (host : Host) (messages : List Message)
    (n : Int) (hgood : ∀ message ∈ messages, message.type ∈ colouredTypes) :
    ∃ lines, self._generateLines host messages n = .ok lines := by
  unfold XRConsole._generateLines
  generalize ([] : List Line) = acc
  induction messages generalizing acc with
  | nil => exact ⟨acc, rfl⟩
  | cons m ms ih =>
    rw [List.foldlM_cons]
    rcases getColor_ok_or_invalid self m.type with ⟨_, colour, hc⟩ | ⟨hnot, _⟩
    · simp only [localLinesOf_ok self _ colour m _ hc, bind, Except.bind, pure, Except.pure]
      exact ih (fun b hb => hgood b (List.mem_cons_of_mem _ hb)) _
    · exact absurd (hgood m (List.mem_cons_self _ _)) hnot

/-! ## Lemmas on the render pass -/

theorem render_null_context (self : XRConsole) (host : Host) (factory : XRConsoleFactory)
    (hctx : host.getContext = none) :
    self.render host factory = { console := self, calls := [], thrown := some .typeError } := by
  unfold XRConsole.render
  rw [hctx]

theorem render_thrown_console (self : XRConsole) (host : Host) (factory : XRConsoleFactory)
    (e : JSError) (hthrown : (self.render host factory).thrown = some e) :
    (self.render host factory).console = self := by
  unfold XRConsole.render at hthrown ⊢
  cases hctx : host.getContext with
  | none => rfl
  | some context =>
    simp only [hctx] at hthrown ⊢
    split
    · rfl
    · rename_i lines hg
      simp only [hg] at hthrown
      cases hthrown

theorem render_completed_console (self : XRConsole) (host : Host) (factory : XRConsoleFactory)
    (hdone : (self.render host factory).thrown = none) :
    (self.render host factory).console = { self with needsUpdate := false } := by
  unfold XRConsole.render at hdone ⊢
  cases hctx : host.getContext with
  | none => simp only [hctx] at hdone; cases hdone
  | some context =>
    simp only [hctx] at hdone ⊢
    split
    · rename_i e hg
      simp only [hg] at hdone
      cases hdone
    · rfl

theorem markAll_getElem? (self : XRConsoleFactory) (i : Nat) :
    self.markAll._consoleInstances[i]? =
      self._consoleInstances[i]?.map fun c => { c with needsUpdate := true } := by
  simp [XRConsoleFactory.markAll]

/-! ## The dirty flag -/

/-- C7: a console created through `createConsole` is registered with
`needsUpdate = true`; after a `render` that completes its flag is `false`; an
ingestion through an override sets the flag of every registered console, so
of this one too; and `updateMatrixWorld` on a console whose flag is `false`
issues no call at all on the canvas. -/
theorem dirty_flag_lifecycle (factory : XRConsoleFactory) (host : Host) (options : OptionsArg)
    (t : MessageType) (now : Int) (args : List String)
    (hdone : ((factory.createConsole options).2.render host
      (factory.createConsole options).1).thrown = none) :
    (factory.createConsole options).2.needsUpdate = true ∧
      (factory.createConsole options).1._consoleInstances[factory._consoleInstances.length]? =
        some (factory.createConsole options).2 ∧
      (∃ rendered result,
        (factory.createConsole options).1.renderAt host factory._consoleInstances.length =
            some (rendered, result) ∧
          result.thrown = none ∧
          rendered.needsUpdateAt factory._consoleInstances.length = some false ∧
          (rendered.consoleOverride t now args).needsUpdateAt factory._consoleInstances.length =
            some true ∧
          ∃ idle, rendered.updateMatrixWorldAt host factory._consoleInstances.length =
            some (rendered, idle) ∧ idle.calls = [] ∧ idle.thrown = none) ∧
      (∀ (store : XRConsoleFactory) (i : Nat) (c : XRConsole),
        store._consoleInstances[i]? = some c →
          (store.consoleOverride t now args).needsUpdateAt i = some true) ∧
      (∀ (c : XRConsole) (store : XRConsoleFactory), c.needsUpdate = false →
        (c.updateMatrixWorld host store).calls = [] ∧
          (c.updateMatrixWorld host store).console = c) := by
  have hreg : (factory.createConsole options).1._consoleInstances[factory._consoleInstances.length]? =
      some (factory.createConsole options).2 := by
    simp [XRConsoleFactory.createConsole]
  have hmark : ∀ (store : XRConsoleFactory) (i : Nat) (c : XRConsole),
      store._consoleInstances[i]? = some c →
        (store.consoleOverride t now args).needsUpdateAt i = some true := by
    intro store i c hc
    unfold XRConsoleFactory.needsUpdateAt XRConsoleFactory.consoleOverride
    rw [markAll_getElem?]
    have : (store._pushMessage (buildMessage now t args))._consoleInstances =
        store._consoleInstances := rfl
    rw [this, hc]
    rfl
  have hidle : ∀ (c : XRConsole) (store : XRConsoleFactory), c.needsUpdate = false →
      (c.updateMatrixWorld host store) = { console := c, calls := [], thrown := none } := by
    intro c store hc
    unfold XRConsole.updateMatrixWorld
    simp [hc]
  have hlen : factory._consoleInstances.length <
      (factory.createConsole options).1._consoleInstances.length := by
    simp [XRConsoleFactory.createConsole]
  have hset : ∀ c : XRConsole,
      ((factory.createConsole options).1._consoleInstances.set
        factory._consoleInstances.length c)[factory._consoleInstances.length]? = some c := by
    intro c
    rw [List.getElem?_set_self hlen]
  refine ⟨rfl, hreg, ?_, hmark, fun c store hc => ?_⟩
  · refine ⟨{ (factory.createConsole options).1 with
        _consoleInstances := (factory.createConsole options).1._consoleInstances.set
          factory._consoleInstances.length
          ((factory.createConsole options).2.render host
            (factory.createConsole options).1).console },
      (factory.createConsole options).2.render host (factory.createConsole options).1,
      ?_, hdone, ?_, ?_, ?_⟩
    · simp only [XRConsoleFactory.renderAt, XRConsoleFactory.onConsole, hreg]
    · simp only [XRConsoleFactory.needsUpdateAt, hset, render_completed_console _ _ _ hdone,
        Option.map_some']
    · exact hmark _ _ _ (hset _)
    · refine ⟨{ console := ((factory.createConsole options).2.render host
          (factory.createConsole options).1).console, calls := [], thrown := none }, ?_, rfl, rfl⟩
      simp only [XRConsoleFactory.updateMatrixWorldAt, XRConsoleFactory.onConsole, hset,
        render_completed_console _ _ _ hdone]
      rw [hidle _ _ rfl]
      simp
  · rw [hidle c store hc]
    exact ⟨rfl, rfl⟩

/-- The witness of `dirty_flag_lifecycle`: a default console on a new store,
rendered on the example host, then `console.error` is called. -/
theorem dirty_flag_lifecycle_witness :
    ((XRConsoleFactory.new.createConsole {}).2.render exampleHost
        (XRConsoleFactory.new.createConsole {}).1).thrown = none ∧
      (∃ rendered result,
        (XRConsoleFactory.new.createConsole {}).1.renderAt exampleHost 0 =
            some (rendered, result) ∧
          result.thrown = none ∧
          rendered.needsUpdateAt 0 = some false ∧
          (rendered.consoleOverride MessageType.Error 11 ["boom"]).needsUpdateAt 0 = some true ∧
          ∃ idle, rendered.updateMatrixWorldAt exampleHost 0 = some (rendered, idle) ∧
            idle.calls = [] ∧ idle.thrown = none) :=
  ⟨by decide,
    (dirty_flag_lifecycle XRConsoleFactory.new exampleHost {} MessageType.Error 11 ["boom"]
      (by decide)).2.2.1⟩

/-- C8, evaluated: a default console is created, two messages are ingested and
the console is rendered, so its flag is `false`; the capacity is then set to
1, which drops one of the two messages, and the flag is still `false`. The
setter never touches the registered consoles. -/
theorem setMaxNumMessages_leaves_flag_clean :
    ((((XRConsoleFactory.new.createConsole {}).1.consoleInfo 10 ["hello"]).consoleError 11
        ["boom"]).renderAt exampleHost 0).map
        (fun p =>
          (p.2.thrown, p.1._messageQueue.length, p.1.needsUpdateAt 0,
            (p.1.setMaxNumMessages 1)._messageQueue.length,
            (p.1.setMaxNumMessages 1).needsUpdateAt 0)) =
        some (none, 2, some false, 1, some false) ∧
      ∀ (store : XRConsoleFactory) (value : Int),
        (store.setMaxNumMessages value)._consoleInstances = store._consoleInstances :=
  ⟨by decide, fun _ _ => rfl⟩

/-! ## Colour resolution -/

/-- C9: `_getColorForMessageType` returns `logColor`, `errorColor`,
`warningColor`, `infoColor`, `debugColor` for `Log`, `Error`, `Warning`,
`Info`, `Debug`; it throws exactly when the value is none of these five, the
thrown error is `Invalid message type`, and `All` is such a value; a colour is
returned for the five severities only. -/
theorem getColorForMessageType_total (self : XRConsole) (t : MessageType) :
    self._getColorForMessageType MessageType.Log = .ok self._options.logColor ∧
      self._getColorForMessageType MessageType.Error = .ok self._options.errorColor ∧
      self._getColorForMessageType MessageType.Warning = .ok self._options.warningColor ∧
      self._getColorForMessageType MessageType.Info = .ok self._options.infoColor ∧
      self._getColorForMessageType MessageType.Debug = .ok self._options.debugColor ∧
      self._getColorForMessageType MessageType.All = .error (.error "Invalid message type") ∧
      ((∃ e, self._getColorForMessageType t = .error e) ↔ t ∉ colouredTypes) ∧
      (t ∉ colouredTypes →
        self._getColorForMessageType t = .error (.error "Invalid message type")) ∧
      (∀ colour, self._getColorForMessageType t = .ok colour → t ∈ colouredTypes) := by
  refine ⟨rfl, rfl, rfl, rfl, rfl, rfl, ?_, ?_, ?_⟩
  · constructor
    · rintro ⟨e, he⟩
      rcases getColor_ok_or_invalid self t with ⟨_, colour, hc⟩ | ⟨hnot, _⟩
      · rw [hc] at he; cases he
      · exact hnot
    · intro hnot
      rcases getColor_ok_or_invalid self t with ⟨hin, _⟩ | ⟨_, hc⟩
      · exact absurd hin hnot
      · exact ⟨_, hc⟩
  · intro hnot
    rcases getColor_ok_or_invalid self t with ⟨hin, _⟩ | ⟨_, hc⟩
    · exact absurd hin hnot
    · exact hc
  · intro colour hok
    rcases getColor_ok_or_invalid self t with ⟨hin, _⟩ | ⟨_, hc⟩
    · exact hin
    · rw [hc] at hok; cases hok

/-- The witness of `getColorForMessageType_total`: the values 0, 6 and 7 on a
default console. -/
theorem getColorForMessageType_total_witness :
    (XRConsole.new {})._getColorForMessageType 7 = .error (.error "Invalid message type") ∧
      (XRConsole.new {})._getColorForMessageType 0 = .error (.error "Invalid message type") ∧
      (XRConsole.new {})._getColorForMessageType MessageType.All =
        .error (.error "Invalid message type") :=
  ⟨(getColorForMessageType_total (XRConsole.new {}) 7).2.2.2.2.2.2.2.1 (by decide),
    (getColorForMessageType_total (XRConsole.new {}) 0).2.2.2.2.2.2.2.1 (by decide),
    (getColorForMessageType_total (XRConsole.new {}) 0).2.2.2.2.2.1⟩

/-! ## Failed render passes -/

/-- C10: a `render` started with `needsUpdate = true` that throws leaves
`needsUpdate = true`. It throws when the canvas yields no 2D context, and when
one of the queried messages has a severity without a colour. -/
theorem failed_render_stays_dirty (self : XRConsole) (host : Host) (factory : XRConsoleFactory)
    (hdirty : self.needsUpdate = true) :
    (∀ e, (self.render host factory).thrown = some e →
        (self.render host factory).console.needsUpdate = true) ∧
      (host.getContext = none →
        (self.render host factory).thrown = some .typeError ∧
          (self.render host factory).console.needsUpdate = true) ∧
      (∀ context, host.getContext = some context →
        (∃ message ∈ self.queriedMessages factory
            (context.measureText self._options.fontSize "M"),
          message.type ∉ colouredTypes) →
        (self.render host factory).thrown = some (.error "Invalid message type") ∧
          (self.render host factory).console.needsUpdate = true) := by
  have hkeep : ∀ e, (self.render host factory).thrown = some e →
      (self.render host factory).console.needsUpdate = true := by
    intro e he
    rw [render_thrown_console self host factory e he]
    exact hdirty
  refine ⟨hkeep, ?_, ?_⟩
  · intro hctx
    have hthrown : (self.render host factory).thrown = some .typeError := by
      rw [render_null_context self host factory hctx]
    exact ⟨hthrown, hkeep _ hthrown⟩
  · intro context hctx hbad
    have hthrown : (self.render host factory).thrown = some (.error "Invalid message type") := by
      unfold XRConsole.render
      simp only [hctx]
      rw [generateLines_error self host _ _ hbad]
    exact ⟨hthrown, hkeep _ hthrown⟩

/-- The witness of `failed_render_stays_dirty`: a new default console rendered
without a 2D context, and rendered after a message of severity 7 was pushed. -/
theorem failed_render_stays_dirty_witness :
    ((XRConsole.new {}).render exampleHostNoContext XRConsoleFactory.new).thrown =
        some .typeError ∧
      ((XRConsole.new {}).render exampleHostNoContext
        XRConsoleFactory.new).console.needsUpdate = true ∧
      ((XRConsole.new {}).render exampleHost
        (XRConsoleFactory.new._pushMessage ⟨7, 10, "x"⟩)).thrown =
          some (.error "Invalid message type") ∧
      ((XRConsole.new {}).render exampleHost
        (XRConsoleFactory.new._pushMessage ⟨7, 10, "x"⟩)).console.needsUpdate = true :=
  have h1 := (failed_render_stays_dirty (XRConsole.new {}) exampleHostNoContext
    XRConsoleFactory.new (by decide)).2.1 rfl
  have h2 := (failed_render_stays_dirty (XRConsole.new {}) exampleHost
    (XRConsoleFactory.new._pushMessage ⟨7, 10, "x"⟩) (by decide)).2.2
    ⟨fun _ _ => ⟨8, 10⟩⟩ rfl ⟨⟨7, 10, "x"⟩, by decide, by decide⟩
  ⟨h1.1, h1.2, h2.1, h2.2⟩

/-! ## Ingestion and clearing -/

theorem jsJoin_cons_append (sep x y : String) (rest : List String) :
    jsJoin sep ((x ++ y) :: rest) = x ++ jsJoin sep (y :: rest) := by
  cases rest with
  | nil => rfl
  | cons b r => simp [jsJoin, String.append_assoc]

theorem intercalate_go_eq_jsJoin (sep acc : String) (rest : List String) :
    String.intercalate.go acc sep rest = jsJoin sep (acc :: rest) := by
  induction rest generalizing acc with
  | nil => rfl
  | cons a r ih =>
    rw [String.intercalate.go, ih, String.append_assoc, jsJoin_cons_append, jsJoin_cons_append]
    simp [jsJoin, String.append_assoc]

/-- The embedded `join` is the library intercalation of the separator. -/
theorem jsJoin_eq_intercalate (sep : String) (args : List String) :
    jsJoin sep args = sep.intercalate args := by
  cases args with
  | nil => rfl
  | cons a r => rw [String.intercalate, intercalate_go_eq_jsJoin]

/-- C14: an override of severity `t` called with `args` puts the message of
type `t` whose content is `args` joined by single spaces at index 0 of the
queue and then keeps `slice(0, maxNumMessages)` of it (so the message is at
index 0 whenever the capacity is at least 1); it sets `needsUpdate` on every
registered console and changes nothing else; the five overrides are this body
at `Log`, `Error`, `Warning`, `Info` and `Debug`. -/
theorem consoleOverride_ingests (self : XRConsoleFactory) (t : MessageType) (now : Int)
    (args : List String) :
    (self.consoleOverride t now args)._messageQueue =
        jsSlice (⟨t, now, " ".intercalate args⟩ :: self._messageQueue) 0 self._maxNumMessages ∧
      (0 ≤ self._maxNumMessages →
        (self.consoleOverride t now args)._messageQueue =
          ((⟨t, now, " ".intercalate args⟩ : Message) :: self._messageQueue).take
            self._maxNumMessages.toNat) ∧
      (1 ≤ self._maxNumMessages →
        (self.consoleOverride t now args)._messageQueue[0]? =
          some ⟨t, now, " ".intercalate args⟩) ∧
      (∀ c ∈ (self.consoleOverride t now args)._consoleInstances, c.needsUpdate = true) ∧
      (self.consoleOverride t now args)._consoleInstances =
        self._consoleInstances.map (fun c => { c with needsUpdate := true }) ∧
      (self.consoleOverride t now args)._maxNumMessages = self._maxNumMessages ∧
      self.consoleLog now args = self.consoleOverride MessageType.Log now args ∧
      self.consoleError now args = self.consoleOverride MessageType.Error now args ∧
      self.consoleWarn now args = self.consoleOverride MessageType.Warning now args ∧
      self.consoleInfo now args = self.consoleOverride MessageType.Info now args ∧
      self.consoleDebug now args = self.consoleOverride MessageType.Debug now args := by
  have hq : (self.consoleOverride t now args)._messageQueue =
      jsSlice (⟨t, now, " ".intercalate args⟩ :: self._messageQueue) 0 self._maxNumMessages := by
    simp only [XRConsoleFactory.consoleOverride, XRConsoleFactory.markAll,
      XRConsoleFactory._pushMessage, buildMessage, jsJoin_eq_intercalate]
  have htake : 0 ≤ self._maxNumMessages →
      (self.consoleOverride t now args)._messageQueue =
        ((⟨t, now, " ".intercalate args⟩ : Message) :: self._messageQueue).take
          self._maxNumMessages.toNat := by
    intro h
    rw [hq, jsSlice_zero_of_nonneg _ _ h]
  refine ⟨hq, htake, ?_, ?_, rfl, rfl, rfl, rfl, rfl, rfl, rfl⟩
  · intro h1
    rw [htake (by omega)]
    obtain ⟨k, hk⟩ : ∃ k, self._maxNumMessages.toNat = k + 1 :=
      ⟨self._maxNumMessages.toNat - 1, by omega⟩
    rw [hk]
    simp
  · intro c hc
    simp only [XRConsoleFactory.consoleOverride, XRConsoleFactory.markAll,
      XRConsoleFactory._pushMessage, List.mem_map] at hc
    obtain ⟨c0, _, rfl⟩ := hc
    rfl

/-- The witness of `consoleOverride_ingests`: `console.warn` with two arguments
on a store of capacity 100 with one console and one message. -/
theorem consoleOverride_ingests_witness :
    (((XRConsoleFactory.new.createConsole {}).1.consoleInfo 10 ["hello"]).consoleWarn 11
        ["disk", "full"])._messageQueue =
      [⟨MessageType.Warning, 11, "disk full"⟩, ⟨MessageType.Info, 10, "hello"⟩] :=
  ((consoleOverride_ingests ((XRConsoleFactory.new.createConsole {}).1.consoleInfo 10 ["hello"])
    MessageType.Warning 11 ["disk", "full"]).2.1 (by decide)).trans (by decide)

/-- C15: `console.clear` empties the queue whatever it held, sets `needsUpdate`
on every registered console, and leaves the capacity and the registered
consoles (their number, order and options) as they were; afterwards
`getMessages` returns the empty array for every filter and limit. -/
theorem consoleClear_empties (self : XRConsoleFactory) (messageType : MessageType)
    (count : Int) :
    self.consoleClear._messageQueue = [] ∧
      (∀ c ∈ self.consoleClear._consoleInstances, c.needsUpdate = true) ∧
      self.consoleClear._consoleInstances =
        self._consoleInstances.map (fun c => { c with needsUpdate := true }) ∧
      self.consoleClear._consoleInstances.length = self._consoleInstances.length ∧
      self.consoleClear._consoleInstances.map (fun c => c._options) =
        self._consoleInstances.map (fun c => c._options) ∧
      self.consoleClear._maxNumMessages = self._maxNumMessages ∧
      self.consoleClear.getMessages messageType count = [] := by
  refine ⟨rfl, ?_, rfl, ?_, ?_, rfl, ?_⟩
  · intro c hc
    simp only [XRConsoleFactory.consoleClear, XRConsoleFactory.markAll, List.mem_map] at hc
    obtain ⟨c0, _, rfl⟩ := hc
    rfl
  · simp [XRConsoleFactory.consoleClear, XRConsoleFactory.markAll]
  · simp [XRConsoleFactory.consoleClear, XRConsoleFactory.markAll, Function.comp_def]
  · unfold XRConsoleFactory.getMessages
    have hq : self.consoleClear._messageQueue = [] := rfl
    rw [hq]
    split
    · rfl
    · simp [jsSlice]

/-- The witness of `consoleClear_empties`: `console.clear` on the store that
holds `boom` and `hello` and one rendered console. -/
theorem consoleClear_empties_witness :
    helloBoomStore.consoleClear._messageQueue = [] ∧
      helloBoomStore.consoleClear.needsUpdateAt 0 = some true ∧
      helloBoomStore.consoleClear._maxNumMessages = 100 ∧
      helloBoomStore.consoleClear.getMessages MessageType.Error 5 = [] :=
  have h := consoleClear_empties helloBoomStore MessageType.Error 5
  ⟨h.1, by decide, h.2.2.2.2.2.1, h.2.2.2.2.2.2⟩

/-! ## Hard line breaks -/

theorem splitChars_append_newline (a b : List Char) :
    splitChars (a ++ newline :: b) = splitChars a ++ splitChars b := by
  induction a with
  | nil => simp [splitChars]
  | cons c a ih =>
    by_cases hc : c = newline
    · simp [splitChars, hc, ih]
    · cases hs : splitChars a with
      | nil => exact absurd hs (splitChars_ne_nil a)
      | cons h t =>
        rw [List.cons_append, splitChars, if_neg hc, ih, hs, splitChars, if_neg hc, hs]
        rfl

/-- C20: a line feed between `a` and `b` is a hard break: `wrapText` of
`a`, line feed, `b` is `wrapText` of `a` followed by `wrapText` of `b`, for
every `wrap` and every budget. -/
theorem wrapText_hard_break (wrap : String → Int → String) (a b : String) (w : Int) :
    wrapText wrap (a ++ "\n" ++ b) w = wrapText wrap a w ++ wrapText wrap b w := by
  have hdata : (a ++ "\n" ++ b).data = a.data ++ newline :: b.data := by
    simp only [String.data_append, List.append_assoc]
    rfl
  simp only [wrapText_eq_flatMap, splitLines, hdata, splitChars_append_newline, List.map_append,
    List.flatMap_append]

/-! ## Painting -/

theorem renderLines_foldl (hp lineHeight charWidth : ℚ) (lines : List Line) (k : Nat) (y : ℚ)
    (calls : List CanvasCall) :
    (lines.foldl
        (fun (acc : ℚ × List CanvasCall) line =>
          (acc.1 - lineHeight,
            acc.2 ++
              [CanvasCall.fillText line.color line.text
                ((line.indent : ℚ) * charWidth + hp) acc.1]))
        (y, calls)).2 =
      calls ++ (lines.enumFrom k).map fun p =>
        CanvasCall.fillText p.2.color p.2.text ((p.2.indent : ℚ) * charWidth + hp)
          (y - ((p.1 : ℚ) - (k : ℚ)) * lineHeight) := by
  induction lines generalizing k y calls with
  | nil => simp
  | cons l ls ih =>
    rw [List.foldl_cons, ih (k + 1), List.enumFrom_cons, List.map_cons, List.append_assoc,
      List.singleton_append]
    congr 2
    · simp
    · apply List.map_congr_left
      intro p _
      congr 1
      push_cast
      ring

/-- The calls of `_renderLines`, one per line and in the order of the lines. -/
theorem renderLines_eq (self : XRConsole) (lines : List Line) (lineHeight charWidth : ℚ) :
    self._renderLines lines lineHeight charWidth =
      lines.enum.map fun p =>
        CanvasCall.fillText p.2.color p.2.text
          ((p.2.indent : ℚ) * charWidth + self._options.horizontalPadding)
          (min self.innerHeight ((lines.length : ℚ) * lineHeight) +
            self._options.verticalPadding - (p.1 : ℚ) * lineHeight) := by
  unfold XRConsole._renderLines
  simp only []
  rw [renderLines_foldl _ _ _ _ 0, List.nil_append, List.enum]
  apply List.map_congr_left
  intro p _
  simp

theorem renderLines_getElem? (self : XRConsole) (lines : List Line) (lineHeight charWidth : ℚ)
    (i : Nat) (line : Line) (hline : lines[i]? = some line) :
    (self._renderLines lines lineHeight charWidth)[i]? =
      some (CanvasCall.fillText line.color line.text
        ((line.indent : ℚ) * charWidth + self._options.horizontalPadding)
        (min self.innerHeight ((lines.length : ℚ) * lineHeight) +
          self._options.verticalPadding - (i : ℚ) * lineHeight)) := by
  rw [renderLines_eq, List.getElem?_map, List.getElem?_enum, hline]
  rfl

/-- C17: for a list of `n` lines, `_renderLines` issues exactly `n` calls, all
of them `fillText`, in the order of the list; the call for line `i` uses the
colour and the text of that line, `x = indent * charWidth + horizontalPadding`
and `y = min(innerHeight, n * lineHeight) + verticalPadding - i * lineHeight`,
where `innerHeight = pixelHeight - verticalPadding * 2`. -/
theorem renderLines_positions (self : XRConsole) (lines : List Line)
    (lineHeight charWidth : ℚ) :
    (self._renderLines lines lineHeight charWidth).length = lines.length ∧
      self.innerHeight = self._options.pixelHeight - self._options.verticalPadding * 2 ∧
      (∀ (i : Nat) (line : Line), lines[i]? = some line →
        (self._renderLines lines lineHeight charWidth)[i]? =
          some (CanvasCall.fillText line.color line.text
            ((line.indent : ℚ) * charWidth + self._options.horizontalPadding)
            (min self.innerHeight ((lines.length : ℚ) * lineHeight) +
              self._options.verticalPadding - (i : ℚ) * lineHeight))) ∧
      (self._renderLines lines lineHeight charWidth).map
          (fun call => match call with
            | .fillText colour text _ _ => some (colour, text)
            | _ => none) =
        lines.map fun line => some (line.color, line.text) := by
  refine ⟨?_, rfl, ?_, ?_⟩
  · rw [renderLines_eq]; simp
  · exact renderLines_getElem? self lines lineHeight charWidth
  · rw [renderLines_eq, List.map_map]
    have h : ∀ (l : List Line) (k : Nat) (g : Nat × Line → ℚ) (f : Line → ℚ),
        (l.enumFrom k).map
            ((fun call => match call with
              | .fillText colour text _ _ => some (colour, text)
              | _ => none) ∘ fun p => CanvasCall.fillText p.2.color p.2.text (f p.2) (g p)) =
          l.map fun line => some (line.color, line.text) := by
      intro l
      induction l with
      | nil => intro k g f; rfl
      | cons a as ih => intro k g f; simp [ih]
    exact h lines 0 _ (fun line => (line.indent : ℚ) * charWidth + self._options.horizontalPadding)

/-- The witness of `renderLines_positions`: two lines on a default console, with
a line height of 12 and a glyph width of 8. -/
theorem renderLines_positions_witness :
    ((XRConsole.new {})._renderLines
        [⟨"boom", "#D0342C", 0⟩, ⟨"more", "#76B947", 11⟩] 12 8)[0]? =
        some (CanvasCall.fillText "#D0342C" "boom" 5 29) ∧
      ((XRConsole.new {})._renderLines
        [⟨"boom", "#D0342C", 0⟩, ⟨"more", "#76B947", 11⟩] 12 8)[1]? =
        some (CanvasCall.fillText "#76B947" "more" 93 17) :=
  have h := (renderLines_positions (XRConsole.new {})
    [⟨"boom", "#D0342C", 0⟩, ⟨"more", "#76B947", 11⟩] 12 8).2.2.1
  ⟨(h 0 _ rfl).trans (by norm_num [XRConsole.innerHeight, XRConsole.new, DEFAULT_OPTIONS]),
    (h 1 _ rfl).trans (by norm_num [XRConsole.innerHeight, XRConsole.new, DEFAULT_OPTIONS])⟩

/-! ## Timestamps -/

theorem pad_eq_twoDigits (n : Nat) (hn : n < 100) : pad n = twoDigits n := by
  interval_cases n <;> rfl

theorem jsSlice_last_length {α : Type} (xs : List α) (k : Nat) (hpos : 0 < k)
    (hk : k ≤ xs.length) :
    (jsSlice xs (-(k : Int)) xs.length).length = k := by
  have h1 : relIndex xs.length (-(k : Int)) = xs.length - k := by
    unfold relIndex
    rw [if_pos (by omega)]
    omega
  have h2 : relIndex xs.length (xs.length : Int) = xs.length := by
    rw [relIndex_of_nonneg _ _ (Int.ofNat_nonneg _)]
    simp
  unfold jsSlice
  simp only [h1, h2, List.length_take, List.length_drop]
  omega

/-- The helper `pad` returns two characters, whatever the number. -/
theorem pad_length (n : Nat) : (pad n).length = 2 := by
  have hdata : (jsJoin "," (List.replicate 2 "0") ++ toString n).data =
      '0' :: ',' :: '0' :: (toString n).data := by
    rw [String.data_append]
    rfl
  unfold pad strSliceFrom
  rw [String.length]
  exact jsSlice_last_length _ 2 (by decide) (by rw [hdata]; simp)

/-- The timestamp string of a console that shows timestamps has 11 characters. -/
theorem timestampOf_length (self : XRConsole) (host : Host) (message : Message)
    (hshow : self._options.showTimestamp = true) :
    (self.timestampOf host message).length = 11 := by
  unfold XRConsole.timestampOf buildReadableTimestamp
  rw [if_pos hshow]
  simp only [String.length_append, pad_length]
  rfl

/-- C19: with an hour below 24, a minute below 60 and a second below 60, the
timestamp string of a message is the bracketed hour, minute and second, each
as two decimal digits, separated by colons and followed by one space; a
number below 10 is written with a leading zero; the helper `pad` keeps the
last two characters of the text `0,0` followed by the number. -/
theorem timestamp_two_digit_fields (self : XRConsole) (host : Host) (message : Message)
    (hshow : self._options.showTimestamp = true)
    (hh : host.getHours message.timestamp < 24)
    (hm : host.getMinutes message.timestamp < 60)
    (hs : host.getSeconds message.timestamp < 60) :
    self.timestampOf host message =
        "[" ++ twoDigits (host.getHours message.timestamp) ++ ":" ++
          twoDigits (host.getMinutes message.timestamp) ++ ":" ++
          twoDigits (host.getSeconds message.timestamp) ++ "]" ++ " " ∧
      (∀ n, n < 10 → pad n = "0" ++ toString n) ∧
      (∀ n, 10 ≤ n → n < 100 → pad n = toString n) ∧
      (∀ n, pad n = strSliceFrom ("0,0" ++ toString n) (-2)) ∧
      (∀ n, (pad n).length = 2) := by
  refine ⟨?_, ?_, ?_, fun _ => rfl, pad_length⟩
  · unfold XRConsole.timestampOf buildReadableTimestamp
    rw [if_pos hshow, pad_eq_twoDigits _ (by omega), pad_eq_twoDigits _ (by omega),
      pad_eq_twoDigits _ (by omega)]
  · intro n hn
    interval_cases n <;> rfl
  · intro n h1 h2
    interval_cases n <;> rfl

/-- The witness of `timestamp_two_digit_fields`: the example host, whose time is
01:02:03. -/
theorem timestamp_two_digit_fields_witness :
    (XRConsole.new {}).timestampOf exampleHost ⟨MessageType.Log, 0, "x"⟩ = "[01:02:03] " :=
  (timestamp_two_digit_fields (XRConsole.new {}) exampleHost ⟨MessageType.Log, 0, "x"⟩ rfl
    (by decide) (by decide) (by decide)).1.trans (by decide)

/-! ## The array of lines -/

theorem getColor_eq_colourOr (self : XRConsole) (t : MessageType) (ht : t ∈ colouredTypes) :
    self._getColorForMessageType t = .ok (self.colourOr t) := by
  rcases getColor_ok_or_invalid self t with ⟨_, colour, hc⟩ | ⟨hnot, _⟩
  · simp [XRConsole.colourOr, hc]
  · exact absurd ht hnot

theorem linesOfMessage_length (self : XRConsole) (host : Host) (n : Int) (message : Message) :
    (self.linesOfMessage host n message).length = (self.segmentsOf host n message).length := by
  simp [XRConsole.linesOfMessage]

theorem linesOfMessage_getElem? (self : XRConsole) (host : Host) (n : Int) (message : Message)
    (k : Nat) :
    (self.linesOfMessage host n message)[k]? =
      (self.segmentsOf host n message)[k]?.map fun segment =>
        lineOf (self.timestampOf host message) (self.colourOr message.type) (k, segment) := by
  simp [XRConsole.linesOfMessage, List.getElem?_enum, Function.comp_def]

theorem foldlM_ok_of_forall {α β ε : Type} (f : β → α → Except ε β) (g : β → α → β)
    (l : List α) (h : ∀ a ∈ l, ∀ b, f b a = .ok (g b a)) (b : β) :
    l.foldlM f b = .ok (l.foldl g b) := by
  induction l generalizing b with
  | nil => rfl
  | cons a as ih =>
    rw [List.foldlM_cons, h a (List.mem_cons_self _ _) b]
    simp only [bind, Except.bind, List.foldl_cons]
    exact ih (fun x hx => h x (List.mem_cons_of_mem _ hx)) _

/-- With coloured severities `_generateLines` returns the lines of each message
in turn, the lines of one message last segment first. -/
theorem generateLines_eq (self : XRConsole) (host : Host) (messages : List Message) (n : Int)
    (hcol : ∀ message ∈ messages, message.type ∈ colouredTypes) :
    self._generateLines host messages n =
      .ok (messages.flatMap fun message => (self.linesOfMessage host n message).reverse) := by
  unfold XRConsole._generateLines
  rw [foldlM_ok_of_forall _
    (fun lines message => lines ++ (self.linesOfMessage host n message).reverse) messages,
    foldl_append_eq_flatMap, List.nil_append]
  intro message hmem lines
  simp only []
  rw [localLinesOf_ok self _ (self.colourOr message.type) message _
    (getColor_eq_colourOr self message.type (hcol message hmem))]
  rfl

/-- C16: for messages `m0, m1, ...` of the five severities whose contents wrap
into the segment lists `S0, S1, ...`, `_generateLines` returns the lines of
`S0` reversed, then the lines of `S1` reversed, and so on: the messages keep
their order, the segments of each message are reversed, and the number of
lines is the sum of the segment counts. -/
theorem generateLines_flattens_reversed (self : XRConsole) (host : Host)
    (messages : List Message) (n : Int)
    (hcol : ∀ message ∈ messages, message.type ∈ colouredTypes) :
    self._generateLines host messages n =
        .ok (messages.flatMap fun message => (self.linesOfMessage host n message).reverse) ∧
      (∀ message, (self.linesOfMessage host n message).map (fun line => line.text) =
        (self.segmentsOf host n message).enum.map fun p =>
          if p.1 = 0 then self.timestampOf host message ++ p.2 else p.2) ∧
      (∀ lines, self._generateLines host messages n = .ok lines →
        lines.length =
          (messages.map fun message => (self.segmentsOf host n message).length).sum) ∧
      (∀ older newer, messages = newer ++ older →
        self._generateLines host messages n =
          .ok ((newer.flatMap fun message => (self.linesOfMessage host n message).reverse) ++
            older.flatMap fun message => (self.linesOfMessage host n message).reverse)) := by
  have heq := generateLines_eq self host messages n hcol
  refine ⟨heq, ?_, ?_, ?_⟩
  · intro message
    simp [XRConsole.linesOfMessage, lineOf, Function.comp_def]
  · intro lines hlines
    rw [heq] at hlines
    cases hlines
    rw [List.length_flatMap]
    simp [Function.comp_def, linesOfMessage_length]
  · intro older newer hsplit
    rw [heq, hsplit, List.flatMap_append]

/-- The witness of `generateLines_flattens_reversed`: two messages of two
segments each, without timestamps. -/
theorem generateLines_flattens_reversed_witness :
    (XRConsole.new { showTimestamp := some false })._generateLines exampleHostTwoSegments
        [⟨MessageType.Error, 11, "ab"⟩, ⟨MessageType.Info, 10, "cd"⟩] 80 =
      .ok [⟨"b", "#D0342C", 0⟩, ⟨"a", "#D0342C", 0⟩, ⟨"d", "#76B947", 0⟩, ⟨"c", "#76B947", 0⟩] :=
  (generateLines_flattens_reversed (XRConsole.new { showTimestamp := some false })
    exampleHostTwoSegments [⟨MessageType.Error, 11, "ab"⟩, ⟨MessageType.Info, 10, "cd"⟩] 80
    (by decide)).1.trans (congrArg Except.ok (by decide))

/-! ## Indentation of the segments -/

/-- C18: for a message of one of the five severities and any `wrap`, the first
segment gives a line of indent 0 whose text is the timestamp string followed
by the segment, and every later segment gives a line whose indent is the
length of the timestamp string and whose text is the segment alone; every line
has the colour of the severity; without timestamps the timestamp string is
empty and every indent is 0. `_generateLines` returns these lines, last
segment first. -/
theorem segment_lines_indent_and_text (self : XRConsole) (host : Host) (n : Int)
    (message : Message) (hcol : message.type ∈ colouredTypes) :
    self._generateLines host [message] n =
        .ok (self.linesOfMessage host n message).reverse ∧
      self._getColorForMessageType message.type = .ok (self.colourOr message.type) ∧
      (∀ segment, (self.segmentsOf host n message)[0]? = some segment →
        (self.linesOfMessage host n message)[0]? =
          some ⟨self.timestampOf host message ++ segment, self.colourOr message.type, 0⟩) ∧
      (∀ k segment, (self.segmentsOf host n message)[k + 1]? = some segment →
        (self.linesOfMessage host n message)[k + 1]? =
          some ⟨segment, self.colourOr message.type, (self.timestampOf host message).length⟩) ∧
      (self.linesOfMessage host n message).length = (self.segmentsOf host n message).length ∧
      (self._options.showTimestamp = true →
        self.timestampOf host message =
          buildReadableTimestamp host message.timestamp ++ " ") ∧
      (self._options.showTimestamp = false →
        self.timestampOf host message = "" ∧
          ∀ line ∈ self.linesOfMessage host n message, line.indent = 0) := by
  refine ⟨?_, getColor_eq_colourOr self _ hcol, ?_, ?_, linesOfMessage_length _ _ _ _, ?_, ?_⟩
  · rw [generateLines_eq self host [message] n (by simpa using hcol)]
    simp
  · intro segment hseg
    rw [linesOfMessage_getElem?, hseg]
    rfl
  · intro k segment hseg
    rw [linesOfMessage_getElem?, hseg]
    rfl
  · intro hshow
    simp [XRConsole.timestampOf, hshow]
  · intro hshow
    have hts : self.timestampOf host message = "" := by
      simp [XRConsole.timestampOf, hshow]
    refine ⟨hts, ?_⟩
    intro line hline
    simp only [XRConsole.linesOfMessage, List.mem_map] at hline
    obtain ⟨p, _, rfl⟩ := hline
    simp only [lineOf, hts]
    split <;> rfl

/-- The witness of `segment_lines_indent_and_text`: a message of two segments
with the timestamp of the example host. -/
theorem segment_lines_indent_and_text_witness :
    (XRConsole.new {}).linesOfMessage exampleHostTwoSegments 80 ⟨MessageType.Log, 0, "ab"⟩ =
      [⟨"[01:02:03] a", "#FFFFFF", 0⟩, ⟨"b", "#FFFFFF", 11⟩] ∧
    (XRConsole.new {})._generateLines exampleHostTwoSegments [⟨MessageType.Log, 0, "ab"⟩] 80 =
      .ok [⟨"b", "#FFFFFF", 11⟩, ⟨"[01:02:03] a", "#FFFFFF", 0⟩] :=
  ⟨by decide,
    (segment_lines_indent_and_text (XRConsole.new {}) exampleHostTwoSegments 80
      ⟨MessageType.Log, 0, "ab"⟩ (by decide)).1.trans (congrArg Except.ok (by decide))⟩

/-- C13, evaluated: with timestamps enabled and a content of two segments, the
line of the second segment has indent 11, not 10. -/
theorem continuation_indent_is_not_ten :
    (XRConsole.new {})._generateLines exampleHostTwoSegments [⟨MessageType.Log, 0, "ab"⟩] 80 =
        .ok [⟨"b", "#FFFFFF", 11⟩, ⟨"[01:02:03] a", "#FFFFFF", 0⟩] ∧
      ¬ ∃ first second,
        (XRConsole.new {})._generateLines exampleHostTwoSegments
            [⟨MessageType.Log, 0, "ab"⟩] 80 = .ok [second, first] ∧
          first.indent = 0 ∧ second.indent = 10 := by
  have h : (XRConsole.new {})._generateLines exampleHostTwoSegments
      [⟨MessageType.Log, 0, "ab"⟩] 80 =
        .ok [⟨"b", "#FFFFFF", 11⟩, ⟨"[01:02:03] a", "#FFFFFF", 0⟩] :=
    (generateLines_eq (XRConsole.new {}) exampleHostTwoSegments [⟨MessageType.Log, 0, "ab"⟩] 80
      (by decide)).trans (congrArg Except.ok (by decide))
  refine ⟨h, ?_⟩
  rintro ⟨first, second, heq, _, hsecond⟩
  rw [h] at heq
  injection heq with heq
  injection heq with h1 _
  rw [← h1] at hsecond
  exact absurd hsecond (by decide)

/-- C13, amended: with timestamps enabled, for every message of one of the five
severities whose content wraps into two segments, `_generateLines` gives the
first segment indent 0 and the second segment indent 11, the length of the
timestamp string (the bracketed time and the space after it). -/
theorem continuation_indent_is_eleven (self : XRConsole) (host : Host) (n : Int)
    (message : Message) (first second : String)
    (hshow : self._options.showTimestamp = true)
    (hcol : message.type ∈ colouredTypes)
    (hsegments : self.segmentsOf host n message = [first, second]) :
    self._generateLines host [message] n =
        .ok [⟨second, self.colourOr message.type, 11⟩,
          ⟨self.timestampOf host message ++ first, self.colourOr message.type, 0⟩] ∧
      (self.timestampOf host message).length = 11 := by
  have hlen := timestampOf_length self host message hshow
  refine ⟨?_, hlen⟩
  rw [generateLines_eq self host [message] n (by simpa using hcol)]
  simp [XRConsole.linesOfMessage, hsegments, List.enum, lineOf, hlen]

/-- The witness of `continuation_indent_is_eleven`: the content `ab` on the host
that breaks after the first character. -/
theorem continuation_indent_is_eleven_witness :
    (XRConsole.new {})._generateLines exampleHostTwoSegments [⟨MessageType.Warning, 0, "ab"⟩] 80 =
      .ok [⟨"b", "#FF7900", 11⟩, ⟨"[01:02:03] a", "#FF7900", 0⟩] :=
  (continuation_indent_is_eleven (XRConsole.new {}) exampleHostTwoSegments 80
    ⟨MessageType.Warning, 0, "ab"⟩ "a" "b" rfl (by decide) (by decide)).1.trans
    (congrArg Except.ok (by decide))

/-! ## The place of a segment among the lines -/

theorem getElem?_flatMap_offset {α β : Type} (f : α → List β) (l : List α) (a j : Nat) (x : α)
    (hx : l[a]? = some x) (hj : j < (f x).length) :
    (l.flatMap f)[((l.take a).map fun y => (f y).length).sum + j]? = (f x)[j]? := by
  induction l generalizing a with
  | nil => simp at hx
  | cons y ys ih =>
    cases a with
    | zero =>
      simp only [List.getElem?_cons_zero, Option.some.injEq] at hx
      subst hx
      simp only [List.take_zero, List.map_nil, List.sum_nil, Nat.zero_add, List.flatMap_cons]
      exact List.getElem?_append_left hj
    | succ a =>
      simp only [List.getElem?_cons_succ] at hx
      simp only [List.take_succ_cons, List.map_cons, List.sum_cons, List.flatMap_cons]
      rw [List.getElem?_append_right (by omega)]
      have hidx : (f y).length + ((ys.take a).map fun y => (f y).length).sum + j -
          (f y).length = ((ys.take a).map fun y => (f y).length).sum + j := by omega
      rw [hidx]
      exact ih a hx

theorem sum_take_succ (counts : List Nat) (a : Nat) :
    (counts.take (a + 1)).sum = (counts.take a).sum + counts.getD a 0 := by
  induction counts generalizing a with
  | nil => simp
  | cons c cs ih =>
    cases a with
    | zero => simp
    | succ a =>
      simp only [List.take_succ_cons, List.sum_cons, ih a, List.getD_cons_succ]
      omega

theorem sum_take_mono (counts : List Nat) (i j : Nat) (hij : i ≤ j) :
    (counts.take i).sum ≤ (counts.take j).sum := by
  induction j with
  | zero =>
    have : i = 0 := by omega
    subst this
    exact le_refl _
  | succ j ih =>
    rcases Nat.lt_or_ge i (j + 1) with h | h
    · rw [sum_take_succ]
      exact le_trans (ih (by omega)) (Nat.le_add_right _ _)
    · have : i = j + 1 := by omega
      subst this
      exact le_refl _

/-- The lines of a newer message come before the lines of an older message. -/
theorem lineIndex_lt_of_lt (counts : List Nat) (a b k k' : Nat) (hab : a < b)
    (hk : k < counts.getD a 0) :
    lineIndex counts a k < lineIndex counts b k' := by
  unfold lineIndex
  have h1 := sum_take_succ counts a
  have h2 := sum_take_mono counts (a + 1) b hab
  omega

/-- A later segment of a message comes before an earlier segment of it. -/
theorem lineIndex_succ_lt (counts : List Nat) (a k : Nat) (hk : k + 1 < counts.getD a 0) :
    lineIndex counts a (k + 1) < lineIndex counts a k := by
  unfold lineIndex
  omega

theorem segmentCounts_getD (self : XRConsole) (host : Host) (n : Int)
    (messages : List Message) (a : Nat) (message : Message) (ha : messages[a]? = some message) :
    (self.segmentCounts host n messages).getD a 0 =
      (self.segmentsOf host n message).length := by
  simp [XRConsole.segmentCounts, List.getD_eq_getElem?_getD, ha]

/-- The line at the index of segment `k` of the message of index `a`. -/
theorem generateLines_at_lineIndex (self : XRConsole) (host : Host) (messages : List Message)
    (n : Int) (a k : Nat) (message : Message) (segment : String)
    (ha : messages[a]? = some message)
    (hk : (self.segmentsOf host n message)[k]? = some segment) :
    (messages.flatMap fun message => (self.linesOfMessage host n message).reverse)[
        lineIndex (self.segmentCounts host n messages) a k]? =
      some (lineOf (self.timestampOf host message) (self.colourOr message.type) (k, segment)) := by
  have hlt : k < (self.segmentsOf host n message).length := by
    rcases Nat.lt_or_ge k (self.segmentsOf host n message).length with h | h
    · exact h
    · rw [List.getElem?_eq_none h] at hk
      cases hk
  have hcount := segmentCounts_getD self host n messages a message ha
  have hlen := linesOfMessage_length self host n message
  unfold lineIndex
  rw [hcount]
  have hmap : (self.segmentCounts host n messages).take a =
      (messages.take a).map fun y => ((self.linesOfMessage host n y).reverse).length := by
    simp [XRConsole.segmentCounts, List.map_take, linesOfMessage_length]
  rw [hmap, getElem?_flatMap_offset
    (fun message => (self.linesOfMessage host n message).reverse) messages a _ message ha
    (by simp only [List.length_reverse, hlen]; omega)]
  rw [List.getElem?_reverse (by omega), hlen]
  have hidx : (self.segmentsOf host n message).length - 1 -
      ((self.segmentsOf host n message).length - 1 - k) = k := by omega
  rw [hidx, linesOfMessage_getElem?, hk]
  rfl

/-- The call issued for segment `k` of the message of index `a`. -/
theorem segmentCall_eq (self : XRConsole) (host : Host) (messages : List Message) (n : Int)
    (lineHeight charWidth : ℚ) (a k : Nat) (message : Message) (segment : String)
    (hcol : ∀ message ∈ messages, message.type ∈ colouredTypes)
    (ha : messages[a]? = some message)
    (hk : (self.segmentsOf host n message)[k]? = some segment) :
    self.segmentCall host messages n lineHeight charWidth a k =
      some (CanvasCall.fillText (self.colourOr message.type)
        (if k = 0 then self.timestampOf host message ++ segment else segment)
        (((if k = 0 then 0 else (self.timestampOf host message).length : Nat) : ℚ) * charWidth +
          self._options.horizontalPadding)
        (min self.innerHeight
            (((self.segmentCounts host n messages).sum : Nat) * lineHeight) +
          self._options.verticalPadding -
          (lineIndex (self.segmentCounts host n messages) a k : ℚ) * lineHeight)) := by
  unfold XRConsole.segmentCall
  rw [generateLines_eq self host messages n hcol]
  simp only []
  rw [renderLines_getElem? self _ lineHeight charWidth _ _
    (generateLines_at_lineIndex self host messages n a k message segment ha hk)]
  have hlen : (messages.flatMap fun message =>
      (self.linesOfMessage host n message).reverse).length =
        (self.segmentCounts host n messages).sum := by
    rw [List.length_flatMap]
    simp [XRConsole.segmentCounts, Function.comp_def, linesOfMessage_length]
  rw [hlen]
  rfl

theorem segmentY_eq (self : XRConsole) (host : Host) (messages : List Message) (n : Int)
    (lineHeight charWidth : ℚ) (a k : Nat) (message : Message)
    (hcol : ∀ message ∈ messages, message.type ∈ colouredTypes)
    (ha : messages[a]? = some message)
    (hk : k < (self.segmentsOf host n message).length) :
    self.segmentY host messages n lineHeight charWidth a k =
      some (min self.innerHeight
            (((self.segmentCounts host n messages).sum : Nat) * lineHeight) +
          self._options.verticalPadding -
          (lineIndex (self.segmentCounts host n messages) a k : ℚ) * lineHeight) := by
  unfold XRConsole.segmentY
  rw [segmentCall_eq self host messages n lineHeight charWidth a k message
    ((self.segmentsOf host n message)[k]) hcol ha (List.getElem?_eq_getElem hk)]
  rfl

theorem y_lt_of_index_lt (y0 lineHeight : ℚ) (i j : Nat) (hpos : 0 < lineHeight)
    (hij : i < j) : y0 - (j : ℚ) * lineHeight < y0 - (i : ℚ) * lineHeight := by
  have h : (i : ℚ) < (j : ℚ) := by exact_mod_cast hij
  have := mul_lt_mul_of_pos_right h hpos
  linarith

/-! ## The order of the painted lines -/

/-- C11: for messages of the five severities, newest first, and a positive
line height, in the `fillText` calls that `_renderLines` issues on the lines
of `_generateLines`: every segment of every message has its call, with the
colour of the message; every line of a newer message is drawn at a strictly
greater `y` than every line of an older message; and within one message
segment `k` is drawn at a strictly smaller `y` than segment `k + 1`. -/
theorem terminal_visual_order (self : XRConsole) (host : Host) (messages : List Message)
    (n : Int) (lineHeight charWidth : ℚ) (hpos : 0 < lineHeight)
    (hcol : ∀ message ∈ messages, message.type ∈ colouredTypes) :
    (∀ a k message segment, messages[a]? = some message →
        (self.segmentsOf host n message)[k]? = some segment →
        ∃ y,
          self.segmentCall host messages n lineHeight charWidth a k =
              some (CanvasCall.fillText (self.colourOr message.type)
                (if k = 0 then self.timestampOf host message ++ segment else segment)
                (((if k = 0 then 0 else (self.timestampOf host message).length : Nat) : ℚ) *
                    charWidth + self._options.horizontalPadding) y) ∧
            self.segmentY host messages n lineHeight charWidth a k = some y) ∧
      (∀ a b k k' newer older, a < b → messages[a]? = some newer →
        messages[b]? = some older →
        k < (self.segmentsOf host n newer).length →
        k' < (self.segmentsOf host n older).length →
        ∀ ya yb, self.segmentY host messages n lineHeight charWidth a k = some ya →
          self.segmentY host messages n lineHeight charWidth b k' = some yb → yb < ya) ∧
      (∀ a k message, messages[a]? = some message →
        k + 1 < (self.segmentsOf host n message).length →
        ∀ y1 y2, self.segmentY host messages n lineHeight charWidth a k = some y1 →
          self.segmentY host messages n lineHeight charWidth a (k + 1) = some y2 → y1 < y2) := by
  refine ⟨?_, ?_, ?_⟩
  · intro a k message segment ha hk
    have hcall := segmentCall_eq self host messages n lineHeight charWidth a k message segment
      hcol ha hk
    refine ⟨_, hcall, ?_⟩
    unfold XRConsole.segmentY
    rw [hcall]
    rfl
  · intro a b k k' newer older hab ha hb hk hk' ya yb hya hyb
    rw [segmentY_eq self host messages n lineHeight charWidth a k newer hcol ha hk] at hya
    rw [segmentY_eq self host messages n lineHeight charWidth b k' older hcol hb hk'] at hyb
    cases hya
    cases hyb
    apply y_lt_of_index_lt _ _ _ _ hpos
    apply lineIndex_lt_of_lt _ _ _ _ _ hab
    rw [segmentCounts_getD self host n messages a newer ha]
    exact hk
  · intro a k message ha hk y1 y2 hy1 hy2
    rw [segmentY_eq self host messages n lineHeight charWidth a k message hcol ha (by omega)]
      at hy1
    rw [segmentY_eq self host messages n lineHeight charWidth a (k + 1) message hcol ha hk]
      at hy2
    cases hy1
    cases hy2
    apply y_lt_of_index_lt _ _ _ _ hpos
    apply lineIndex_succ_lt
    rw [segmentCounts_getD self host n messages a message ha]
    exact hk

/-- The calls of the render pass of the console without timestamps on the store
that ingested `hello` as `Info` and then `boom` as `Error`. -/
theorem helloBoom_render_calls :
    (plainConsole.render exampleHost helloBoomStore).calls =
      [.clearRect 0 0 1024 512, .fillRect "#222222" 0 0 1024 512, .measureText 16 "M",
        .fillText "#D0342C" "boom" 5 29, .fillText "#76B947" "hello" 5 17,
        .disposeMap, .newCanvasTexture] := by
  have hgen : ∀ n : Int, plainConsole._generateLines exampleHost
      [⟨MessageType.Error, 11, "boom"⟩, ⟨MessageType.Info, 10, "hello"⟩] n =
        .ok [⟨"boom", "#D0342C", 0⟩, ⟨"hello", "#76B947", 0⟩] := by
    intro n
    rw [generateLines_eq _ _ _ _ (by decide)]
    rfl
  have hq : ∀ tm, plainConsole.queriedMessages helloBoomStore tm =
      [⟨MessageType.Error, 11, "boom"⟩, ⟨MessageType.Info, 10, "hello"⟩] := by
    intro tm
    rfl
  unfold XRConsole.render
  rw [show exampleHost.getContext = some ⟨fun _ _ => ⟨8, 10⟩⟩ from rfl]
  simp only [hq, hgen]
  norm_num [XRConsole._renderLines, XRConsole.innerHeight, plainConsole, XRConsole.new,
    DEFAULT_OPTIONS]

/-- The witness of `terminal_visual_order`: timestamps off, `hello` ingested as
`Info` and then `boom` as `Error`. Exactly two lines are painted, `boom` in the
error colour at `y = 29` and `hello` in the info colour above it at `y = 17`;
and the `y` of the newer message is the greater one. -/
theorem terminal_visual_order_witness :
    helloBoomStore._messageQueue =
        [⟨MessageType.Error, 11, "boom"⟩, ⟨MessageType.Info, 10, "hello"⟩] ∧
      (plainConsole.render exampleHost helloBoomStore).calls =
        [.clearRect 0 0 1024 512, .fillRect "#222222" 0 0 1024 512, .measureText 16 "M",
          .fillText "#D0342C" "boom" 5 29, .fillText "#76B947" "hello" 5 17,
          .disposeMap, .newCanvasTexture] ∧
      ∃ ya yb,
        plainConsole.segmentY exampleHost helloBoomStore._messageQueue 126 12 8 0 0 = some ya ∧
          plainConsole.segmentY exampleHost helloBoomStore._messageQueue 126 12 8 1 0 =
            some yb ∧
          yb < ya := by
  have h := terminal_visual_order plainConsole exampleHost helloBoomStore._messageQueue 126 12 8
    (by norm_num) (by decide)
  obtain ⟨ya, _, hya⟩ := h.1 0 0 ⟨MessageType.Error, 11, "boom"⟩ "boom" rfl rfl
  obtain ⟨yb, _, hyb⟩ := h.1 1 0 ⟨MessageType.Info, 10, "hello"⟩ "hello" rfl rfl
  exact ⟨rfl, helloBoom_render_calls, ya, yb, hya, hyb,
    h.2.1 0 1 0 0 _ _ (by decide) rfl rfl (by decide) (by decide) ya yb hya hyb⟩

/-! ## Lemmas on words and on the modelled wrapping -/

theorem splitWhitespace_ne_nil (cs : List Char) : splitWhitespace cs ≠ [] := by
  cases cs with
  | nil => simp [splitWhitespace]
  | cons c cs =>
    unfold splitWhitespace
    split
    · simp
    · split <;> simp

theorem splitWhitespace_append_sep (a b : List Char) (c : Char) (hc : c.isWhitespace = true) :
    splitWhitespace (a ++ c :: b) = splitWhitespace a ++ splitWhitespace b := by
  induction a with
  | nil => simp [splitWhitespace, hc]
  | cons x a ih =>
    by_cases hx : x.isWhitespace = true
    · simp [splitWhitespace, hx, ih]
    · cases hs : splitWhitespace a with
      | nil => exact absurd hs (splitWhitespace_ne_nil a)
      | cons h t =>
        rw [List.cons_append, splitWhitespace, if_neg hx, ih, hs, splitWhitespace, if_neg hx, hs]
        rfl

theorem splitWhitespace_of_word (word : List Char)
    (hword : ∀ c ∈ word, c.isWhitespace = false) : splitWhitespace word = [word] := by
  induction word with
  | nil => rfl
  | cons x xs ih =>
    have hx : ¬ x.isWhitespace = true := by
      simp [hword x (List.mem_cons_self _ _)]
    rw [splitWhitespace, if_neg hx, ih (fun c hc => hword c (List.mem_cons_of_mem _ hc))]

theorem splitWhitespace_pieces (cs : List Char) :
    ∀ piece ∈ splitWhitespace cs,
      (∀ c ∈ piece, c.isWhitespace = false) ∧ piece.length ≤ cs.length := by
  induction cs with
  | nil =>
    intro piece hpiece
    simp only [splitWhitespace, List.mem_singleton] at hpiece
    subst hpiece
    simp
  | cons x xs ih =>
    intro piece hpiece
    by_cases hx : x.isWhitespace = true
    · rw [splitWhitespace, if_pos hx, List.mem_cons] at hpiece
      rcases hpiece with rfl | hmem
      · simp
      · exact ⟨(ih piece hmem).1, le_trans (ih piece hmem).2 (by simp)⟩
    · cases hs : splitWhitespace xs with
      | nil => exact absurd hs (splitWhitespace_ne_nil xs)
      | cons h t =>
        rw [splitWhitespace, if_neg hx, hs] at hpiece
        simp only [List.mem_cons] at hpiece
        rcases hpiece with rfl | hmem
        · have hh := ih h (by rw [hs]; exact List.mem_cons_self _ _)
          refine ⟨?_, by simpa using hh.2⟩
          intro c hcmem
          rcases List.mem_cons.mp hcmem with rfl | hc'
          · simpa using hx
          · exact hh.1 c hc'
        · have ht := ih piece (by rw [hs]; exact List.mem_cons_of_mem _ hmem)
          exact ⟨ht.1, le_trans ht.2 (by simp)⟩

/-- A word of a text is not empty, holds no whitespace and is no longer than the text. -/
theorem wordsOf_word_spec (cs word : List Char) (hword : word ∈ wordsOf cs) :
    word ≠ [] ∧ (∀ c ∈ word, c.isWhitespace = false) ∧ word.length ≤ cs.length := by
  unfold wordsOf at hword
  rw [List.mem_filter] at hword
  have hp := splitWhitespace_pieces cs word hword.1
  refine ⟨?_, hp.1, hp.2⟩
  intro hnil
  subst hnil
  simp at hword

theorem wordsOf_of_word (word : List Char) (hne : word ≠ [])
    (hword : ∀ c ∈ word, c.isWhitespace = false) : wordsOf word = [word] := by
  unfold wordsOf
  rw [splitWhitespace_of_word word hword]
  cases word with
  | nil => exact absurd rfl hne
  | cons x xs => rfl

theorem wordsOf_append_space (current word : List Char) (hne : word ≠ [])
    (hword : ∀ c ∈ word, c.isWhitespace = false) :
    wordsOf (current ++ ' ' :: word) = wordsOf current ++ [word] := by
  have h := wordsOf_of_word word hne hword
  unfold wordsOf at h ⊢
  rw [splitWhitespace_append_sep current word ' ' (by decide), List.filter_append, h]

theorem fillLines_ne_nil (width : Nat) (current : List Char) (rest : List (List Char)) :
    fillLines width current rest ≠ [] := by
  induction rest generalizing current with
  | nil => simp [fillLines]
  | cons word rest ih =>
    unfold fillLines
    split
    · exact ih _
    · simp

theorem wrapWords_ne_nil (width : Nat) (words : List (List Char)) :
    wrapWords width words ≠ [] := by
  cases words with
  | nil => simp [wrapWords]
  | cons word rest => exact fillLines_ne_nil _ _ _

/-- The words of the filled lines are the words of the current line followed
by the remaining words. -/
theorem fillLines_words (width : Nat) (current : List Char) (rest : List (List Char))
    (hrest : ∀ word ∈ rest, word ≠ [] ∧ ∀ c ∈ word, c.isWhitespace = false) :
    (fillLines width current rest).flatMap wordsOf = wordsOf current ++ rest := by
  induction rest generalizing current with
  | nil => simp [fillLines]
  | cons word rest ih =>
    have hw := hrest word (List.mem_cons_self _ _)
    have hr : ∀ w ∈ rest, w ≠ [] ∧ ∀ c ∈ w, c.isWhitespace = false :=
      fun w hmem => hrest w (List.mem_cons_of_mem _ hmem)
    unfold fillLines
    split
    · rw [ih _ hr, wordsOf_append_space current word hw.1 hw.2]
      simp
    · rw [List.flatMap_cons, ih _ hr, wordsOf_of_word word hw.1 hw.2]
      simp

theorem wrapWords_words (width : Nat) (words : List (List Char))
    (hwords : ∀ word ∈ words, word ≠ [] ∧ ∀ c ∈ word, c.isWhitespace = false) :
    (wrapWords width words).flatMap wordsOf = words := by
  cases words with
  | nil => rfl
  | cons word rest =>
    have hw := hwords word (List.mem_cons_self _ _)
    unfold wrapWords
    rw [fillLines_words width word rest (fun w hmem => hwords w (List.mem_cons_of_mem _ hmem)),
      wordsOf_of_word word hw.1 hw.2]
    rfl

/-- A filled line is within the width, or it is a single word. -/
theorem fillLines_fits_or (P : List Char → Prop) (width : Nat) (current : List Char)
    (rest : List (List Char)) (hcurrent : current.length ≤ width ∨ P current)
    (hrest : ∀ word ∈ rest, P word) :
    ∀ line ∈ fillLines width current rest, line.length ≤ width ∨ P line := by
  induction rest generalizing current with
  | nil =>
    intro line hline
    simp only [fillLines, List.mem_singleton] at hline
    subst hline
    exact hcurrent
  | cons word rest ih =>
    have hr : ∀ w ∈ rest, P w := fun w hmem => hrest w (List.mem_cons_of_mem _ hmem)
    intro line hline
    unfold fillLines at hline
    split at hline
    · rename_i hfit
      refine ih _ (Or.inl ?_) hr line hline
      simp only [List.length_append, List.length_cons]
      omega
    · rcases List.mem_cons.mp hline with rfl | hmem
      · exact hcurrent
      · exact ih _ (Or.inr (hrest word (List.mem_cons_self _ _))) hr line hmem

theorem wrapWords_fits_or (P : List Char → Prop) (width : Nat) (words : List (List Char))
    (hwords : ∀ word ∈ words, P word) :
    ∀ line ∈ wrapWords width words, line.length ≤ width ∨ P line := by
  cases words with
  | nil =>
    intro line hline
    simp only [wrapWords, List.mem_singleton] at hline
    subst hline
    exact Or.inl (Nat.zero_le _)
  | cons word rest =>
    exact fillLines_fits_or P width word rest (Or.inr (hwords word (List.mem_cons_self _ _)))
      (fun w hmem => hwords w (List.mem_cons_of_mem _ hmem))

theorem fillLines_no_newline (width : Nat) (current : List Char) (rest : List (List Char))
    (hcurrent : newline ∉ current) (hrest : ∀ word ∈ rest, newline ∉ word) :
    ∀ line ∈ fillLines width current rest, newline ∉ line := by
  induction rest generalizing current with
  | nil =>
    intro line hline
    simp only [fillLines, List.mem_singleton] at hline
    subst hline
    exact hcurrent
  | cons word rest ih =>
    have hw := hrest word (List.mem_cons_self _ _)
    have hr : ∀ w ∈ rest, newline ∉ w := fun w hmem => hrest w (List.mem_cons_of_mem _ hmem)
    intro line hline
    unfold fillLines at hline
    split at hline
    · refine ih _ ?_ hr line hline
      intro hmem
      rcases List.mem_append.mp hmem with h1 | h2
      · exact hcurrent h1
      · rcases List.mem_cons.mp h2 with h3 | h4
        · exact absurd h3 (by decide)
        · exact hw h4
    · rcases List.mem_cons.mp hline with rfl | hmem
      · exact hcurrent
      · exact ih _ hw hr line hmem

theorem wrapWords_no_newline (width : Nat) (cs : List Char) :
    ∀ line ∈ wrapWords width (wordsOf cs), newline ∉ line := by
  have hwords : ∀ word ∈ wordsOf cs, newline ∉ word := by
    intro word hword hmem
    have := (wordsOf_word_spec cs word hword).2.1 newline hmem
    exact absurd this (by decide)
  cases hw : wordsOf cs with
  | nil =>
    intro line hline
    simp only [wrapWords, List.mem_singleton] at hline
    subst hline
    simp
  | cons word rest =>
    rw [hw] at hwords
    exact fillLines_no_newline width word rest (hwords word (List.mem_cons_self _ _))
      (fun w hmem => hwords w (List.mem_cons_of_mem _ hmem))

theorem splitChars_of_no_newline (l : List Char) (hl : newline ∉ l) : splitChars l = [l] := by
  induction l with
  | nil => rfl
  | cons x xs ih =>
    have hx : ¬ x = newline := fun h => hl (h ▸ List.mem_cons_self _ _)
    rw [splitChars, if_neg hx, ih (fun h => hl (List.mem_cons_of_mem _ h))]

theorem splitChars_joinLines (ls : List (List Char)) (hne : ls ≠ [])
    (hls : ∀ l ∈ ls, newline ∉ l) : splitChars (joinLines ls) = ls := by
  induction ls with
  | nil => exact absurd rfl hne
  | cons l rest ih =>
    cases rest with
    | nil => exact splitChars_of_no_newline l (hls l (List.mem_cons_self _ _))
    | cons l2 rest2 =>
      rw [joinLines, splitChars_append_newline,
        splitChars_of_no_newline l (hls l (List.mem_cons_self _ _)),
        ih (by simp) (fun x hx => hls x (List.mem_cons_of_mem _ hx))]
      rfl

theorem splitLines_specWrap (line : String) (w : Int) :
    splitLines (specWrap line w) = (wrapWords w.toNat (wordsOf line.data)).map String.mk := by
  unfold splitLines specWrap
  rw [splitChars_joinLines _ (wrapWords_ne_nil _ _) (wrapWords_no_newline _ _)]

/-- The function `wrapText` over the modelled `wrap`, on characters. -/
theorem wrapText_specWrap (content : String) (w : Int) :
    wrapText specWrap content w =
      (splitChars content.data).flatMap fun l =>
        (wrapWords w.toNat (wordsOf l)).map String.mk := by
  rw [wrapText_eq_flatMap]
  simp only [splitLines_specWrap]
  rw [splitLines, List.flatMap_map]

theorem splitWhitespace_flatMap_splitChars (cs : List Char) :
    splitWhitespace cs = (splitChars cs).flatMap splitWhitespace := by
  induction cs with
  | nil => rfl
  | cons x xs ih =>
    by_cases hx : x = newline
    · subst hx
      rw [splitChars, if_pos rfl, splitWhitespace, if_pos (by decide), List.flatMap_cons, ← ih]
      rfl
    · cases hs : splitChars xs with
      | nil => exact absurd hs (splitChars_ne_nil xs)
      | cons l ls =>
        rw [hs, List.flatMap_cons] at ih
        rw [splitChars, if_neg hx, hs, List.flatMap_cons]
        by_cases hws : x.isWhitespace = true
        · rw [splitWhitespace, if_pos hws, ih, splitWhitespace, if_pos hws]
          rfl
        · cases hl : splitWhitespace l with
          | nil => exact absurd hl (splitWhitespace_ne_nil l)
          | cons h t =>
            rw [hl] at ih
            rw [splitWhitespace, if_neg hws, ih, splitWhitespace, if_neg hws, hl]
            rfl

/-- The words of a text are the words of its lines, line after line. -/
theorem wordsOf_flatMap_splitChars (cs : List Char) :
    wordsOf cs = (splitChars cs).flatMap wordsOf := by
  unfold wordsOf
  rw [splitWhitespace_flatMap_splitChars cs, List.filter_flatMap]

/-! ## Wrapping -/

/-- C12, evaluated: the content `abcdefgh` with the budget 3 is wrapped into the
single line `abcdefgh`, longer than the budget; and no `wrap` at all can give
lines within the budget 3 that hold the word `abcdefgh` whole. -/
theorem wrap_long_word_exceeds_budget :
    wrapText specWrap "abcdefgh" 3 = ["abcdefgh"] ∧
      ¬ (∀ line ∈ wrapText specWrap "abcdefgh" 3, line.length ≤ 3) ∧
      ¬ ∃ wrap : String → Int → String,
        (∀ line ∈ wrapText wrap "abcdefgh" 3, line.length ≤ 3) ∧
          ∀ word ∈ wordsOf "abcdefgh".data,
            ∃ line ∈ wrapText wrap "abcdefgh" 3, word ∈ wordsOf line.data := by
  refine ⟨by decide, by decide, ?_⟩
  rintro ⟨wrap, hlen, hwhole⟩
  obtain ⟨line, hline, hword⟩ := hwhole "abcdefgh".data (by decide)
  have h1 := (wordsOf_word_spec line.data _ hword).2.2
  have h2 := hlen line hline
  have h3 : line.length = line.data.length := rfl
  have h4 : "abcdefgh".data.length = 8 := rfl
  omega

/-- C12, amended: over the modelled `wrap` and for a positive budget `w`, the
words of the lines returned by `wrapText` are the words of the content, in
order, so every word of the content is whole inside one returned line; a
returned line is at most `w` long or is a single word of the content; hence
every returned line is at most `w` long when no word of the content is longer
than `w`. The content `alpha beta gamma` with budget 7 gives `alpha`, `beta`,
`gamma`. -/
theorem wrapText_keeps_words_whole (content : String) (w : Int) (hw : 0 < w) :
    ((wrapText specWrap content w).flatMap fun line => wordsOf line.data) =
        wordsOf content.data ∧
      (∀ word ∈ wordsOf content.data,
        ∃ line ∈ wrapText specWrap content w, word ∈ wordsOf line.data) ∧
      (∀ line ∈ wrapText specWrap content w,
        (line.length : Int) ≤ w ∨ line.data ∈ wordsOf content.data) ∧
      ((∀ word ∈ wordsOf content.data, (word.length : Int) ≤ w) →
        ∀ line ∈ wrapText specWrap content w, (line.length : Int) ≤ w) ∧
      wrapText specWrap "alpha beta gamma" 7 = ["alpha", "beta", "gamma"] := by
  have hwords : ((wrapText specWrap content w).flatMap fun line => wordsOf line.data) =
      wordsOf content.data := by
    rw [wrapText_specWrap, wordsOf_flatMap_splitChars content.data, List.flatMap_assoc]
    congr 1
    funext l
    rw [List.flatMap_map]
    exact wrapWords_words w.toNat (wordsOf l)
      (fun word hword => ⟨(wordsOf_word_spec l word hword).1, (wordsOf_word_spec l word hword).2.1⟩)
  have hlines : ∀ line ∈ wrapText specWrap content w,
      (line.length : Int) ≤ w ∨ line.data ∈ wordsOf content.data := by
    intro line hline
    rw [wrapText_specWrap, List.mem_flatMap] at hline
    obtain ⟨l, hl, hmem⟩ := hline
    rw [List.mem_map] at hmem
    obtain ⟨cs, hcs, rfl⟩ := hmem
    rcases wrapWords_fits_or (fun word => word ∈ wordsOf l) w.toNat (wordsOf l)
      (fun word hword => hword) cs hcs with hfit | hword
    · left
      have : (String.mk cs).length = cs.length := rfl
      omega
    · right
      rw [wordsOf_flatMap_splitChars content.data, List.mem_flatMap]
      exact ⟨l, hl, hword⟩
  refine ⟨hwords, ?_, hlines, ?_, by decide⟩
  · intro word hword
    rw [← hwords, List.mem_flatMap] at hword
    exact hword
  · intro hshort line hline
    rcases hlines line hline with h | h
    · exact h
    · exact hshort _ h

/-- The witness of `wrapText_keeps_words_whole`: the content `alpha beta gamma`
with the budget 7. -/
theorem wrapText_keeps_words_whole_witness :
    wrapText specWrap "alpha beta gamma" 7 = ["alpha", "beta", "gamma"] ∧
      (∀ line ∈ wrapText specWrap "alpha beta gamma" 7, (line.length : Int) ≤ 7) ∧
      ((wrapText specWrap "alpha beta gamma" 7).flatMap fun line => wordsOf line.data) =
        wordsOf "alpha beta gamma".data :=
  have h := wrapText_keeps_words_whole "alpha beta gamma" 7 (by decide)
  ⟨h.2.2.2.2, h.2.2.2.1 (by decide), h.1⟩

end LogXR
